import Mathlib

/-!
# Verification of the typemap analysis engine

A shallow embedding, in Lean 4, of the core of the typemap analysis engine:

* `src/analysis/lightweightParser.ts` — top-level symbol extraction
  (`LightweightParser.nodeToSymbol`, `detectReactHookOrComponent`);
* `src/analysis/metricsCollector.ts` — the single-pass metrics collector
  (`collectNodeMetrics` / `visitNode`), restricted to the AST constructs the
  verified scenarios exercise;
* `src/analysis/incrementalParser.ts` — the incremental re-parse decision
  engine (`parseIncremental`, `tryPartialParse`, `adjustLineNumbers`,
  `quickDeclarationCount`);
* `src/cache/cacheManager.ts` — the two-tier content-hash cache
  (`get`, `set`, `setL1`, `touchL1`, `clear`, `getStats`);
* the dependency analyzer (`calculateCouplingMetrics`,
  `detectCircularDependencies`).

Modelling conventions, stated once here:

* TypeScript `Map`s are modelled as association lists with `Map.set`
  overwrite semantics; `Set`s as lists without duplicates where the source
  guarantees it.
* JavaScript numbers holding line numbers or byte sizes are modelled as `Int`
  (they are added to possibly negative deltas, or subtracted from); counters
  that only ever increase are `Nat`.
* The md5/sha256 content hashes are equality fingerprints only; the source
  never inspects them.  They are modelled by the identity function on the
  hashed string (a collision-free fingerprint).
* File contents are carried as their list of lines (the sources immediately
  `split('\n')`); the full content string is their `"\n"`-intercalation.
* The TypeScript AST is embedded only up to the node kinds the claims
  exercise; each embedded function mirrors the source branch for branch on
  that fragment, and the omitted branches are noted at the definition.
-/

namespace TypeMap

/-! ## Symbol kinds (src/types, string union) -/

inductive SymbolKind where
  | classKind
  | interfaceKind
  | functionKind
  | typeKind
  | enumKind
  | variableKind
  | namespaceKind
  | componentKind
  | hookKind
  deriving DecidableEq, Repr

/-! ## `LightweightParser.detectReactHookOrComponent`
(src/analysis/lightweightParser.ts lines 521-533)

JavaScript's `c.toUpperCase() === c` is modelled with `Char.toUpper`, which
agrees with JavaScript on ASCII (the only characters the verified inputs
use): it maps `a`..`z` to `A`..`Z` and leaves digits, `_` and the other ASCII
characters unchanged. -/

/-- Whether the first list is an initial segment of the second. -/
def charsLeading : List Char → List Char → Bool
  | [], _ => true
  | _ :: _, [] => false
  | p :: ps, c :: cs => p == c && charsLeading ps cs

/-- `s.startsWith(lead)`, computed on the character lists (the standard
library's `String.startsWith` does not reduce inside the kernel). -/
def jsStartsWith (s lead : String) : Bool :=
  charsLeading lead.data s.data

/-- `name[i] === name[i].toUpperCase()` at character index `i`; `false` when
the index is out of range (the source guards the access). -/
def charEqToUpperAt (name : String) (i : Nat) : Bool :=
  match name.data.get? i with
  | some c => c.toUpper == c
  | none => false

/-- `/^[A-Z]/.test(name)`. -/
def firstCharIsAZ (name : String) : Bool :=
  match name.data.get? 0 with
  | some c => 'A' ≤ c && c ≤ 'Z'
  | none => false

/-- `LightweightParser.detectReactHookOrComponent(name, isTsx)`. -/
def detectReactHookOrComponent (name : String) (isTsx : Bool) : SymbolKind :=
  if jsStartsWith name "use" && name.length > 3 && charEqToUpperAt name 3 then
    .hookKind
  else if isTsx && charEqToUpperAt name 0 && firstCharIsAZ name then
    .componentKind
  else
    .functionKind

/-- The spec's hook naming pattern `use[A-Z]…`: the name starts with `use`
and its fourth character is an uppercase ASCII letter.  Written from the
spec's words, for comparison with `detectReactHookOrComponent`. -/
def specHookPattern (name : String) : Bool :=
  jsStartsWith name "use" &&
    (match name.data.get? 3 with
     | some c => 'A' ≤ c && c ≤ 'Z'
     | none => false)

/-! ## The metrics collector (src/analysis/metricsCollector.ts)

The embedded AST fragment holds the node kinds the verified scenarios use:
literals, identifiers, return/throw statements, blocks, if statements,
the short-circuit binary operators and function nodes.  The source's cases
for loops, switch/case, catch clauses, conditional expressions and call
expressions concern node kinds outside this fragment; in particular the
fragment holds no call expressions, so `isCallbackFunction` (a function
literal passed as a call argument) is constantly `false` and the
callback-depth and promise-chain counters, which only call expressions can
move off `0`, are not modelled. -/

/-- The short-circuit operators counted by the collector:
`&&`, `||`, `??`. -/
inductive LogicOp where
  | andAnd
  | orOr
  | questionQuestion
  deriving DecidableEq, Repr

/-- Which of the three TypeScript function-literal kinds a function node is
(`isFunctionDeclaration` / `isFunctionExpression` / `isArrowFunction`). -/
inductive FuncNodeKind where
  | declaration
  | expression
  | arrow
  deriving DecidableEq, Repr

mutual

/-- The embedded AST fragment traversed by the metrics collector.  The
optional children of the TypeScript nodes (a return's argument, an `else`
part) are modelled by separate constructors, and child lists by the mutual
`MetricForest`, so that the traversal is structurally recursive. -/
inductive MetricNode where
  /-- A literal (numeric or other); no collector case matches it. -/
  | literalNode
  /-- An identifier; no collector case matches it. -/
  | identNode (name : String)
  /-- `return;`. -/
  | returnVoid
  /-- `return e;`. -/
  | returnExpr (arg : MetricNode)
  /-- `throw e;`. -/
  | throwStmt (arg : MetricNode)
  /-- A block `{ … }`. -/
  | blockNode (stmts : MetricForest)
  /-- `if (cond) thenPart` with no `else` part. -/
  | ifStmt (cond : MetricNode) (thenPart : MetricNode)
  /-- `if (cond) thenPart else elsePart`. -/
  | ifElseStmt (cond : MetricNode) (thenPart : MetricNode)
      (elsePart : MetricNode)
  /-- A short-circuit binary expression. -/
  | binaryLogic (op : LogicOp) (lhs : MetricNode) (rhs : MetricNode)
  /-- A function declaration / function expression / arrow function;
  `children` models the node list `ts.forEachChild` yields. -/
  | funcNode (fk : FuncNodeKind) (children : MetricForest)

/-- A list of sibling nodes. -/
inductive MetricForest where
  | nil
  | cons (head : MetricNode) (tail : MetricForest)

end

/-- The collector's `TraversalState` (callback fields omitted, see the
section comment). -/
structure TraversalState where
  cyclomaticComplexity : Nat
  cognitiveComplexity : Nat
  currentNestingDepth : Nat
  maxNestingDepth : Nat
  cognitiveNestingLevel : Nat
  returnCount : Nat
  throwCount : Nat
  insideNestedFunction : Bool
  deriving Repr

/-- Whether the node is a function literal
(`isFunctionDeclaration || isFunctionExpression || isArrowFunction`). -/
def MetricNode.isFunctionLike : MetricNode → Bool
  | .funcNode _ _ => true
  | _ => false

/-- Whether the node is an if statement. -/
def MetricNode.isIf : MetricNode → Bool
  | .ifStmt _ _ => true
  | .ifElseStmt _ _ _ => true
  | _ => false

/-- Whether the node increases structural nesting depth in the source's
nesting-depth case (if statements and function expressions / arrows; of the
source's other cases — loops, try, switch — none is in the fragment). -/
def MetricNode.increasesNesting : MetricNode → Bool
  | .ifStmt _ _ => true
  | .ifElseStmt _ _ _ => true
  | .funcNode .expression _ => true
  | .funcNode .arrow _ => true
  | _ => false

/-- The switches `visitNode` runs before visiting the node's children:
the cyclomatic and cognitive counts, the nesting-depth raise and the
return/throw counts, in the source's order.  `isElseOfIf` is true exactly
when this node is the `elseStatement` of an `if`, and `parentOp` holds the
parent's operator when the parent is a short-circuit binary expression
(the source reads both off parent pointers). -/
def preVisit (node : MetricNode) (st : TraversalState)
    (isElseOfIf : Bool) (parentOp : Option LogicOp) : TraversalState :=
  -- cyclomatic complexity
  let st :=
    if node.isIf || (node matches .binaryLogic _ _ _) then
      { st with cyclomaticComplexity := st.cyclomaticComplexity + 1 }
    else st
  -- cognitive complexity
  let st :=
    if node.isIf then
      if isElseOfIf then
        { st with cognitiveComplexity := st.cognitiveComplexity + 1 }
      else
        { st with cognitiveComplexity :=
            st.cognitiveComplexity + 1 + st.cognitiveNestingLevel }
    else
      match node with
      | .binaryLogic op _ _ =>
        if parentOp ≠ some op then
          { st with cognitiveComplexity := st.cognitiveComplexity + 1 }
        else st
      | _ => st
  -- nesting depth
  let st :=
    if node.increasesNesting then
      let d := st.currentNestingDepth + 1
      { st with currentNestingDepth := d,
                maxNestingDepth := max st.maxNestingDepth d }
    else st
  -- control flow, own body only
  let st :=
    if !st.insideNestedFunction then
      match node with
      | .returnVoid => { st with returnCount := st.returnCount + 1 }
      | .returnExpr _ => { st with returnCount := st.returnCount + 1 }
      | .throwStmt _ => { st with throwCount := st.throwCount + 1 }
      | _ => st
    else st
  -- raise cognitive nesting before visiting children
  if node.isIf then
    { st with cognitiveNestingLevel := st.cognitiveNestingLevel + 1 }
  else st

/-- The restores `visitNode` runs after visiting the node's children. -/
def postVisit (node : MetricNode) (st : TraversalState) : TraversalState :=
  let st :=
    if node.increasesNesting then
      { st with currentNestingDepth := st.currentNestingDepth - 1 }
    else st
  if node.isIf then
    { st with cognitiveNestingLevel := st.cognitiveNestingLevel - 1 }
  else st

mutual

/-- `MetricsCollector.visitNode(node, state, isTopLevel)`: a nested
(non-callback; the fragment has no call expressions) function's subtree is
visited with returns/throws excluded and cognitive nesting raised; every
other node runs `preVisit`, its children (`ts.forEachChild`), then
`postVisit`. -/
def visitNode (node : MetricNode) (st : TraversalState) (isTopLevel : Bool)
    (isElseOfIf : Bool) (parentOp : Option LogicOp) : TraversalState :=
  if !isTopLevel && node.isFunctionLike then
    match node with
    | .funcNode _ children =>
      let saved := st.insideNestedFunction
      let st := { st with insideNestedFunction := true,
                          cognitiveNestingLevel := st.cognitiveNestingLevel + 1 }
      let st := visitForest children st
      { st with insideNestedFunction := saved,
                cognitiveNestingLevel := st.cognitiveNestingLevel - 1 }
    | _ => st  -- unreachable: only function nodes are function-like
  else
    let st := preVisit node st isElseOfIf parentOp
    let st :=
      match node with
      | .returnExpr a => visitNode a st false false none
      | .throwStmt a => visitNode a st false false none
      | .blockNode stmts => visitForest stmts st
      | .ifStmt cond thenPart =>
        visitNode thenPart (visitNode cond st false false none) false false none
      | .ifElseStmt cond thenPart elsePart =>
        let st := visitNode cond st false false none
        let st := visitNode thenPart st false false none
        visitNode elsePart st false true none
      | .binaryLogic op lhs rhs =>
        visitNode rhs (visitNode lhs st false false (some op))
          false false (some op)
      | .funcNode _ children => visitForest children st
      | _ => st
    postVisit node st

/-- Fold `visitNode` over a sibling list. -/
def visitForest (l : MetricForest) (st : TraversalState) : TraversalState :=
  match l with
  | .nil => st
  | .cons n rest => visitForest rest (visitNode n st false false none)

end

/-- The metrics `collectNodeMetrics` returns for a function node
(the callback/promise and class-member fields, constantly zero on this
fragment, are omitted). -/
structure NodeMetrics where
  cyclomaticComplexity : Nat
  cognitiveComplexity : Nat
  maxNestingDepth : Nat
  returnCount : Nat
  throwCount : Nat
  deriving DecidableEq, Repr

/-- `MetricsCollector.collectNodeMetrics(node)`: base cyclomatic complexity
1, then a single `visitNode` pass with `isTopLevel = false`. -/
def collectNodeMetrics (node : MetricNode) : NodeMetrics :=
  let st : TraversalState :=
    { cyclomaticComplexity := 1
      cognitiveComplexity := 0
      currentNestingDepth := 0
      maxNestingDepth := 0
      cognitiveNestingLevel := 0
      returnCount := 0
      throwCount := 0
      insideNestedFunction := false }
  let st := visitNode node st false false none
  { cyclomaticComplexity := st.cyclomaticComplexity
    cognitiveComplexity := st.cognitiveComplexity
    maxNestingDepth := st.maxNestingDepth
    returnCount := st.returnCount
    throwCount := st.throwCount }

/-! ## Top-level statements and `LightweightParser` symbol extraction
(src/analysis/lightweightParser.ts)

The statement fragment holds the statement kinds the verified scenarios
exercise: imports, pure exports, expression and empty statements, function
declarations and variable statements.  The source's branches for class,
interface, type-alias, enum and namespace declarations concern statement
kinds outside the fragment.  Positions are the 0-indexed line/character
pairs the TypeScript API yields (`getLineAndCharacterOfPosition`). -/

/-- A statement's source span: 0-indexed start line/column (`getStart`) and
0-indexed end line (`getEnd`). -/
structure Span where
  startLine : Nat
  startCol : Nat
  endLine : Nat
  deriving DecidableEq, Repr

/-- A function literal used as a variable initializer
(`ArrowFunction` / `FunctionExpression`), with the fields the extractor
reads off it. -/
structure FunctionLiteral where
  fk : FuncNodeKind
  isAsync : Bool
  paramCount : Nat
  children : MetricForest

/-- A variable declaration's initializer, as far as the extractor looks. -/
inductive VarInit where
  | funcLiteral (f : FunctionLiteral)
  | otherExpr

/-- One declaration of a variable statement's declaration list; `name` is
`some` for an identifier binding and `none` for a destructuring pattern
(`ts.isIdentifier(decl.name)` fails). -/
structure VarDecl where
  name : Option String
  init : Option VarInit

/-- A function declaration's fields, as the extractor reads them. -/
structure FuncDeclView where
  span : Span
  name : String
  exported : Bool
  isDefault : Bool
  isAsync : Bool
  paramCount : Nat
  children : MetricForest

/-- The embedded top-level statement fragment. -/
inductive Statement where
  /-- `import …`. -/
  | importDecl (span : Span)
  /-- A pure export (`ExportDeclaration` or `ExportAssignment`). -/
  | exportDecl (span : Span)
  /-- An expression statement. -/
  | exprStmt (span : Span)
  /-- An empty statement. -/
  | emptyStmt (span : Span)
  /-- A named function declaration. -/
  | funcDecl (fd : FuncDeclView)
  /-- A variable statement (`const`/`let`/`var`). -/
  | varStmt (span : Span) (exported : Bool) (isDefault : Bool)
      (decls : List VarDecl)

/-- The symbol record `nodeToSymbol` builds (the float field
`commentDensity` and the fields `hasJsDoc`, `callbackDepth` and
`promiseChainLength` — the latter two constantly zero on the fragment — are
omitted).  `line`, `endLine`, `column` are 1-indexed as in the source;
`linesOfCode` is the difference of the 0-indexed end and start lines. -/
structure LightweightSymbol where
  name : String
  kind : SymbolKind
  line : Nat
  endLine : Nat
  column : Nat
  exported : Bool
  isDefault : Bool
  linesOfCode : Int
  complexity : Nat
  cognitiveComplexity : Nat
  parameterCount : Nat
  maxNestingDepth : Nat
  asyncMethodCount : Nat
  returnCount : Nat
  throwCount : Nat
  deriving DecidableEq, Repr

/-- The variable-statement branch of `nodeToSymbol`, for the first
declaration carrying an identifier name. -/
def varDeclToSymbol (span : Span) (exported isDefault : Bool) (isTsx : Bool)
    (nm : String) (init : Option VarInit) : LightweightSymbol :=
  let defaults :
      SymbolKind × Nat × Nat × Nat × Nat × Bool × Nat × Nat :=
    match init with
    | some (.funcLiteral f) =>
      let metrics := collectNodeMetrics (.funcNode f.fk f.children)
      (detectReactHookOrComponent nm isTsx,
        metrics.cyclomaticComplexity, metrics.cognitiveComplexity,
        f.paramCount, metrics.maxNestingDepth, f.isAsync,
        metrics.returnCount, metrics.throwCount)
    | _ => (.variableKind, 1, 0, 0, 0, false, 0, 0)
  let (kind, complexity, cognitive, paramCount, nesting, isAsync,
       returns, throws) := defaults
  { name := nm
    kind := kind
    line := span.startLine + 1
    endLine := span.endLine + 1
    column := span.startCol + 1
    exported := exported
    isDefault := isDefault
    linesOfCode := (span.endLine : Int) - (span.startLine : Int)
    complexity := complexity
    cognitiveComplexity := cognitive
    parameterCount := paramCount
    maxNestingDepth := nesting
    asyncMethodCount := if isAsync then 1 else 0
    returnCount := returns
    throwCount := throws }

/-- `LightweightParser.nodeToSymbol(node, …)` on the fragment: imports,
pure exports, expression and empty statements yield nothing; function
declarations and variable statements yield one symbol (the first
identifier-named declaration for a variable statement). -/
def nodeToSymbol (stmt : Statement) (isTsx : Bool) :
    Option LightweightSymbol :=
  match stmt with
  | .importDecl _ | .exportDecl _ | .exprStmt _ | .emptyStmt _ => none
  | .funcDecl fd =>
    let metrics := collectNodeMetrics (.funcNode .declaration fd.children)
    some
      { name := fd.name
        kind := detectReactHookOrComponent fd.name isTsx
        line := fd.span.startLine + 1
        endLine := fd.span.endLine + 1
        column := fd.span.startCol + 1
        exported := fd.exported
        isDefault := fd.isDefault
        linesOfCode := (fd.span.endLine : Int) - (fd.span.startLine : Int)
        complexity := metrics.cyclomaticComplexity
        cognitiveComplexity := metrics.cognitiveComplexity
        parameterCount := fd.paramCount
        maxNestingDepth := metrics.maxNestingDepth
        asyncMethodCount := if fd.isAsync then 1 else 0
        returnCount := metrics.returnCount
        throwCount := metrics.throwCount }
  | .varStmt span exported isDefault decls =>
    decls.findSome? fun d =>
      match d.name with
      | some nm => some (varDeclToSymbol span exported isDefault isTsx nm d.init)
      | none => none

/-- `LightweightParser.extractSymbols`: on the fragment (no namespace or
class statements, into which alone the visit recurses) the depth-capped
visit is exactly `nodeToSymbol` over the top-level statement list. -/
def parseFileSymbols (stmts : List Statement) (isTsx : Bool) :
    List LightweightSymbol :=
  stmts.filterMap (fun s => nodeToSymbol s isTsx)

/-! ## Association-list maps

TypeScript `Map`s, with `Map.set` semantics: setting an existing key keeps
its position, setting a new key appends. -/

/-- `map.get(key)`. -/
def alookup {β : Type} : List (String × β) → String → Option β
  | [], _ => none
  | (k, v) :: rest, key => if k = key then some v else alookup rest key

/-- `map.set(key, v)`. -/
def aset {β : Type} : List (String × β) → String → β → List (String × β)
  | [], key, v => [(key, v)]
  | (k, w) :: rest, key, v =>
    if k = key then (k, v) :: rest else (k, w) :: aset rest key v

/-- `map.delete(key)`. -/
def aerase {β : Type} : List (String × β) → String → List (String × β)
  | [], _ => []
  | (k, w) :: rest, key =>
    if k = key then rest else (k, w) :: aerase rest key

/-! ## The incremental parser (src/analysis/incrementalParser.ts)

`quickHash` (a 16-character md5 prefix the source only ever compares for
equality) is modelled as the identity on the hashed string, a collision-free
fingerprint.  A source file is carried as its line list together with its
top-level statement list (the parse `ts.createSourceFile` would yield);
the full content is the `"\n"`-intercalation of the lines. -/

/-- `quickHash(content)`: an equality fingerprint of the content. -/
def quickHash (content : String) : String := content

/-- `CachedSymbol` (line numbers are 1-indexed). -/
structure CachedSymbol where
  name : String
  kind : String
  startLine : Int
  endLine : Int
  declarationLine : Int
  contentHash : String
  deriving DecidableEq, Repr

/-- `FileCache`.  The `lineIndex` map the source also stores is written by
`cacheFile` but never read, and is omitted. -/
structure FileCache where
  filePath : String
  contentHash : String
  lineCount : Nat
  symbols : List CachedSymbol
  deriving DecidableEq, Repr

/-- `EditInfo` (1-indexed lines; `linesDelta` may be negative). -/
structure EditInfo where
  startLine : Int
  endLine : Int
  linesDelta : Int
  deriving DecidableEq, Repr

/-- The `parseStrategy` union `'full' | 'partial' | 'skip'`
(`partialReparse` stands for the string `'partial'`). -/
inductive ParseStrategy where
  | full
  | partialReparse
  | skip
  deriving DecidableEq, Repr

/-- `IncrementalParseResult` (the wall-clock `timeMs` field is omitted). -/
structure IncrementalParseResult where
  symbols : List CachedSymbol
  parseStrategy : ParseStrategy
  affectedSymbols : List String
  deriving DecidableEq, Repr

/-- A source file: its lines and the top-level statements of its parse. -/
structure SourceFile where
  lines : List String
  statements : List Statement

/-- The file's content: its lines joined by `'\n'`. -/
def SourceFile.content (sf : SourceFile) : String :=
  String.intercalate "\n" sf.lines

/-- `IncrementalParser.extractSymbol(statement, …)` on the fragment:
function declarations and variable statements (first declaration, if
identifier-named) yield a symbol; imports, pure exports, expression and
empty statements yield nothing.  `contentHash` hashes
`lines.slice(startLine - 1, endLine).join('\n')`. -/
def incExtractSymbol (lines : List String) (stmt : Statement) :
    Option CachedSymbol :=
  let build : String → String → Span → CachedSymbol := fun name kind span =>
    let startLine := span.startLine + 1
    let endLine := span.endLine + 1
    let symbolContent := String.intercalate "\n"
      ((lines.drop span.startLine).take (endLine - span.startLine))
    { name := name
      kind := kind
      startLine := (startLine : Int)
      endLine := (endLine : Int)
      declarationLine := (startLine : Int)
      contentHash := quickHash symbolContent }
  match stmt with
  | .funcDecl fd => some (build fd.name "function" fd.span)
  | .varStmt span _ _ decls =>
    match decls.head? with
    | some d =>
      match d.name with
      | some nm => some (build nm "variable" span)
      | none => none
    | none => none
  | .importDecl _ | .exportDecl _ | .exprStmt _ | .emptyStmt _ => none

/-- `IncrementalParser.fullParse(filePath, content)`. -/
def fullParse (sf : SourceFile) : List CachedSymbol :=
  sf.statements.filterMap (incExtractSymbol sf.lines)

/-- `IncrementalParser.cacheFile(filePath, content, symbols)` (minus the
unread `lineIndex`). -/
def cacheFile (filePath : String) (sf : SourceFile)
    (symbols : List CachedSymbol) : FileCache :=
  { filePath := filePath
    contentHash := quickHash sf.content
    lineCount := sf.lines.length
    symbols := symbols }

/-! ### `quickDeclarationCount`: the signature-regex declaration count

The three patterns (all with the `gm` flags, so `^` anchors at each line
start) are matched per line; each pattern can match a given line start at
most once, and the source dedupes matches by line number across patterns,
so the count is the number of lines matched by at least one pattern.  The
model matches each pattern within a single line: a `\s+` in pattern
position can in principle consume the newline and continue on the next
line, but every verified input keeps each declaration on one line.  A
trailing `\s+` closing a pattern is satisfied by the newline that follows
the line in the full content (modelled as end of line). -/

/-- `\w` = `[A-Za-z0-9_]`. -/
def jsWordChar (c : Char) : Bool :=
  ('a' ≤ c && c ≤ 'z') || ('A' ≤ c && c ≤ 'Z') ||
    ('0' ≤ c && c ≤ '9') || c == '_'

/-- `\s` within a line (no `'\n'` occurs inside a line). -/
def jsSpaceChar (c : Char) : Bool :=
  c == ' ' || c == '\t' || c == '\x0b' || c == '\x0c' || c == '\r'

/-- Match a literal, returning the rest of the line. -/
def matchLit : List Char → List Char → Option (List Char)
  | [], cs => some cs
  | _ :: _, [] => none
  | l :: ls, c :: cs => if c == l then matchLit ls cs else none

/-- `\s+` within the line. -/
def dropSpaces1 : List Char → Option (List Char)
  | [] => none
  | c :: rest =>
    if jsSpaceChar c then some (rest.dropWhile jsSpaceChar) else none

/-- A `\s+` that closes a pattern: a space character, or the line's end
(the newline following the line in the full content). -/
def tailSpacesOk : List Char → Bool
  | [] => true
  | c :: _ => jsSpaceChar c

/-- The declaration keywords of the first pattern. -/
def declKeywords1 : List String :=
  [ "class", "interface", "function", "type", "enum", "const", "let", "var" ]

/-- `^export\s+(default\s+)?(class|interface|function|type|enum|const|let|var)\s+`. -/
def matchesPattern1 (cs : List Char) : Bool :=
  match matchLit "export".data cs with
  | none => false
  | some cs =>
    match dropSpaces1 cs with
    | none => false
    | some cs =>
      -- `(default\s+)?`: taken when it matches; no keyword starts with `d`,
      -- so regex backtracking over the optional group changes nothing
      let cs :=
        match matchLit "default".data cs with
        | some cs2 =>
          match dropSpaces1 cs2 with
          | some cs3 => cs3
          | none => cs
        | none => cs
      declKeywords1.any fun kw =>
        match matchLit kw.data cs with
        | some rest => tailSpacesOk rest
        | none => false

/-- `^(class|interface|function|type|enum)\s+\w+`. -/
def matchesPattern2 (cs : List Char) : Bool :=
  [ "class", "interface", "function", "type", "enum" ].any fun kw =>
    match matchLit kw.data cs with
    | none => false
    | some cs =>
      match dropSpaces1 cs with
      | none => false
      | some cs =>
        match cs with
        | c :: _ => jsWordChar c
        | [] => false

/-- `^(const|let|var)\s+\w+\s*[=:]`. -/
def matchesPattern3 (cs : List Char) : Bool :=
  [ "const", "let", "var" ].any fun kw =>
    match matchLit kw.data cs with
    | none => false
    | some cs =>
      match dropSpaces1 cs with
      | none => false
      | some cs =>
        match cs with
        | c :: rest =>
          jsWordChar c &&
            (match (rest.dropWhile jsWordChar).dropWhile jsSpaceChar with
             | d :: _ => d == '=' || d == ':'
             | [] => false)
        | [] => false

/-- Whether some pattern matches at the line's start. -/
def lineDeclMatch (line : String) : Bool :=
  matchesPattern1 line.data || matchesPattern2 line.data ||
    matchesPattern3 line.data

/-- `IncrementalParser.quickDeclarationCount(content)`: the size of the set
of (1-indexed) line numbers at which some pattern matches. -/
def quickDeclarationCount (lines : List String) : Nat :=
  (lines.filter lineDeclMatch).length

/-! ### The decision engine -/

/-- One symbol's adjustment in `IncrementalParser.adjustLineNumbers`. -/
def adjustSymbol (ei : EditInfo) (sym : CachedSymbol) : CachedSymbol :=
  if sym.startLine > ei.endLine then
    -- symbol entirely after the edit: shift all three line numbers
    { sym with startLine := sym.startLine + ei.linesDelta
               endLine := sym.endLine + ei.linesDelta
               declarationLine := sym.declarationLine + ei.linesDelta }
  else if sym.endLine ≥ ei.startLine then
    -- symbol contains or overlaps the edit: adjust the end line only
    { sym with endLine := sym.endLine + ei.linesDelta }
  else sym

/-- `IncrementalParser.adjustLineNumbers(symbols, editInfo)`. -/
def adjustLineNumbers (symbols : List CachedSymbol) (ei : EditInfo) :
    List CachedSymbol :=
  symbols.map (adjustSymbol ei)

/-- `IncrementalParser.tryPartialParse`, returning the updated symbol list
and the strategy on success (its two success paths both report no affected
symbols and re-cache the file, which `parseIncremental` below performs). -/
def tryPartialParse (sf : SourceFile) (cached : FileCache) (ei : EditInfo) :
    Option (List CachedSymbol × ParseStrategy) :=
  let affectedDeclarations := cached.symbols.filter fun sym =>
    decide (ei.startLine ≤ sym.declarationLine) &&
      decide (sym.declarationLine ≤ ei.endLine)
  if affectedDeclarations.length > 0 then
    none
  else
    match cached.symbols.find? (fun sym =>
        decide (sym.declarationLine < ei.startLine) &&
          decide (ei.endLine ≤ sym.endLine)) with
    | some _ => some (adjustLineNumbers cached.symbols ei, .skip)
    | none =>
      let quickCount := quickDeclarationCount sf.lines
      if quickCount = cached.symbols.length then
        some (adjustLineNumbers cached.symbols ei, .partialReparse)
      else
        none

/-- The parser's per-file cache (`fileCache : Map<string, FileCache>`). -/
abbrev IncState : Type := List (String × FileCache)

/-- The empty parser cache. -/
def emptyIncState : IncState := []

/-- `IncrementalParser.parseIncremental(filePath, newContent, editInfo)`,
returning the result and the updated cache. -/
def parseIncremental (st : IncState) (filePath : String) (sf : SourceFile)
    (editInfo : Option EditInfo) : IncrementalParseResult × IncState :=
  let newHash := quickHash sf.content
  match alookup st filePath with
  | none =>
    -- Case 1: no cache — full parse
    let symbols := fullParse sf
    let st := aset st filePath (cacheFile filePath sf symbols)
    ({ symbols := symbols
       parseStrategy := .full
       affectedSymbols := symbols.map (·.name) }, st)
  | some cached =>
    if cached.contentHash = newHash then
      -- Case 2: content unchanged — skip
      ({ symbols := cached.symbols
         parseStrategy := .skip
         affectedSymbols := [] }, st)
    else
      -- Case 3: edit info present — try a partial parse
      match editInfo.bind (tryPartialParse sf cached) with
      | some (symbols, strategy) =>
        let st := aset st filePath (cacheFile filePath sf symbols)
        ({ symbols := symbols
           parseStrategy := strategy
           affectedSymbols := [] }, st)
      | none =>
        -- Case 4: fall back to a full parse
        let symbols := fullParse sf
        let st := aset st filePath (cacheFile filePath sf symbols)
        ({ symbols := symbols
           parseStrategy := .full
           affectedSymbols := symbols.map (·.name) }, st)

/-! ## The cache manager (src/cache/cacheManager.ts)

`computeHash` (a 16-character sha256 prefix, only ever compared for
equality) is modelled as the identity; the cache key
`typemap.cache.<hash(filePath)>` is therefore `"typemap.cache." ++
filePath`, injective in the path as the source assumes.  The payload type
is a parameter `α`.  `estimateSize` (the serialized-JSON length times two)
depends only on the entry; it is passed to every operation as a size
function `sz`.  The file read inside `getFileHash` is external: `get` takes
the current content hash as an `Option String` argument (`none` models a
failed read). -/

/-- `CacheEntry<T>` (src/types/cache.ts). -/
structure CacheEntry (α : Type) where
  key : String
  hash : String
  timestamp : Nat
  data : α
  dependencies : List String
  deriving DecidableEq, Repr

/-- `CacheStatistics` (src/types/cache.ts). -/
structure CacheStatistics where
  hits : Nat
  misses : Nat
  size : Int
  maxSize : Int
  evictions : Nat
  deriving DecidableEq, Repr

/-- The `CacheManager`'s state: the L1 map with its LRU order list and byte
counter, the statistics, and the L2 workspace storage. -/
structure CacheManagerState (α : Type) where
  maxSizeMB : Nat
  l1Cache : List (String × CacheEntry α)
  l1Order : List String
  l1SizeBytes : Int
  stats : CacheStatistics
  l2 : List (String × CacheEntry α)
  deriving Repr

/-- The constructor's state (`maxSizeMB` defaults to 100). -/
def initCacheState (α : Type) (maxSizeMB : Nat) : CacheManagerState α :=
  { maxSizeMB := maxSizeMB
    l1Cache := []
    l1Order := []
    l1SizeBytes := 0
    stats := { hits := 0, misses := 0, size := 0,
               maxSize := (maxSizeMB : Int) * 1024 * 1024, evictions := 0 }
    l2 := [] }

/-- `getCacheKey(filePath)`. -/
def getCacheKey (filePath : String) : String := "typemap.cache." ++ filePath

/-- The eviction loop of `setL1`: while the new entry does not fit and the
order list is nonempty, shift the oldest key, and when it is present in the
map remove it, subtract its size and count one eviction.  Returns the
remaining order, map, byte count and eviction counter. -/
def evictLoop {α : Type} (sz : CacheEntry α → Int) (entrySize maxBytes : Int) :
    List String → List (String × CacheEntry α) → Int → Nat →
      List String × List (String × CacheEntry α) × Int × Nat
  | [], l1, size, ev => ([], l1, size, ev)
  | oldest :: rest, l1, size, ev =>
    if size + entrySize > maxBytes then
      match alookup l1 oldest with
      | some old =>
        evictLoop sz entrySize maxBytes rest (aerase l1 oldest)
          (size - sz old) (ev + 1)
      | none => evictLoop sz entrySize maxBytes rest l1 size ev
    else (oldest :: rest, l1, size, ev)

/-- `CacheManager.setL1(key, entry)`. -/
def setL1 {α : Type} (sz : CacheEntry α → Int) (st : CacheManagerState α)
    (key : String) (entry : CacheEntry α) : CacheManagerState α :=
  let entrySize := sz entry
  let maxBytes := (st.maxSizeMB : Int) * 1024 * 1024
  let r := evictLoop sz entrySize maxBytes st.l1Order st.l1Cache
    st.l1SizeBytes st.stats.evictions
  let size := r.2.2.1 + entrySize
  { st with l1Cache := aset r.2.1 key entry
            l1Order := r.1 ++ [key]
            l1SizeBytes := size
            stats := { st.stats with evictions := r.2.2.2, size := size } }

/-- `CacheManager.touchL1(key)`: move the key to the most-recent end when
present. -/
def touchL1 {α : Type} (st : CacheManagerState α) (key : String) :
    CacheManagerState α :=
  if st.l1Order.contains key then
    { st with l1Order := st.l1Order.erase key ++ [key] }
  else st

/-- The L2 path of `CacheManager.get`, taken when L1 misses or holds a
stale hash: an L2 entry with the current hash is promoted to L1 and served;
anything else is a miss. -/
def getFromL2 {α : Type} (sz : CacheEntry α → Int) (st : CacheManagerState α)
    (key : String) (hash : String) : Option α × CacheManagerState α :=
  match alookup st.l2 key with
  | some l2Data =>
    if l2Data.hash = hash then
      -- promote to L1
      let st := setL1 sz st key l2Data
      (some l2Data.data,
        { st with stats := { st.stats with hits := st.stats.hits + 1 } })
    else
      (none, { st with stats := { st.stats with misses := st.stats.misses + 1 } })
  | none =>
    (none, { st with stats := { st.stats with misses := st.stats.misses + 1 } })

/-- The body of `CacheManager.get` once the current hash is known, at the
derived cache key: an L1 entry with the current hash is touched and served,
anything else falls to the L2 path. -/
def getAtKey {α : Type} (sz : CacheEntry α → Int) (st : CacheManagerState α)
    (key : String) (hash : String) : Option α × CacheManagerState α :=
  match alookup st.l1Cache key with
  | some l1Entry =>
    if l1Entry.hash = hash then
      let st := touchL1 st key
      (some l1Entry.data,
        { st with stats := { st.stats with hits := st.stats.hits + 1 } })
    else getFromL2 sz st key hash
  | none => getFromL2 sz st key hash

/-- `CacheManager.get(filePath)`.  `currentHash` is the hash of the file's
current content (`none` when the read fails). -/
def getCM {α : Type} (sz : CacheEntry α → Int) (st : CacheManagerState α)
    (filePath : String) (currentHash : Option String) :
    Option α × CacheManagerState α :=
  match currentHash with
  | none => (none, st)
  | some hash => getAtKey sz st (getCacheKey filePath) hash

/-- `CacheManager.set(filePath, data, content)`; `now` is `Date.now()`. -/
def setCM {α : Type} (sz : CacheEntry α → Int) (st : CacheManagerState α)
    (filePath : String) (data : α) (content : String) (now : Nat) :
    CacheManagerState α :=
  let hash := content
  let key := getCacheKey filePath
  let entry : CacheEntry α :=
    { key := key, hash := hash, timestamp := now, data := data,
      dependencies := [] }
  let st := setL1 sz st key entry
  { st with l2 := aset st.l2 key entry }

/-- `CacheManager.clear()`: the L1 map, order and byte count and the
statistics are reset; the L2 entries are not touched (the source's comment:
"Clear L2 - we need to iterate through workspace state keys / For now, just
reset stats"). -/
def clearCM {α : Type} (st : CacheManagerState α) : CacheManagerState α :=
  { st with l1Cache := []
            l1Order := []
            l1SizeBytes := 0
            stats := { hits := 0, misses := 0, size := 0
                       maxSize := (st.maxSizeMB : Int) * 1024 * 1024
                       evictions := 0 } }

/-- `CacheManager.getStats()`. -/
def getStats {α : Type} (st : CacheManagerState α) : CacheStatistics :=
  { st.stats with size := st.l1SizeBytes }

/-! ## The dependency analyzer (DependencyAnalyzer, src/unnamed/part_013)

The analyzer is modelled over the already-built dependency graph
`Map<filePath, Set<dependencyFilePath>>` as an association list, whose list
order is the map's iteration order; paths are taken as already normalized.
`buildDependencyGraph`'s import-path resolution (filesystem probing of
`.ts/.tsx/.js/.jsx` and `index.*`) is not modelled: for the verified 2-cycle
the premise "A imports B and B imports A, and nothing else resolves" fixes
the graph to `A ↦ {B}, B ↦ {A}`. -/

/-- `CircularDependency`. -/
structure CircularDependency where
  cycle : List String
  length : Nat
  deriving DecidableEq, Repr

/-- `FileCouplingMetrics`; `instability` is exact rational arithmetic. -/
structure FileCouplingMetrics where
  filePath : String
  afferentCoupling : Nat
  efferentCoupling : Nat
  instability : ℚ
  dependsOn : List String
  dependedOnBy : List String
  deriving DecidableEq, Repr

/-- The DFS bookkeeping of `detectCircularDependencies`. -/
structure DfsState where
  visited : List String
  recursionStack : List String
  path : List String
  cycles : List CircularDependency

/-- `dependencyGraph.get(node) || new Set()`. -/
def graphDeps (graph : List (String × List String)) (node : String) :
    List String :=
  (alookup graph node).getD []

/-- `isCycleAlreadyFound(cycles, newCycle)`: an already-recorded cycle with
the same length whose node set contains every node of the new cycle. -/
def isCycleAlreadyFound (cycles : List CircularDependency)
    (newCycle : List String) : Bool :=
  cycles.any fun existing =>
    existing.length == newCycle.length &&
      newCycle.all (fun node => existing.cycle.contains node)

/-- The inner `dfs` closure of `detectCircularDependencies`.  The source's
recursion terminates because every call marks a fresh node visited before
recursing only into unvisited dependencies; `fuel` bounds the recursion
depth and is chosen in `detectCircularDependencies` above that bound, so
the fuel-out branch is never taken. -/
def dfsVisit (graph : List (String × List String)) :
    Nat → String → DfsState → DfsState
  | 0, _, st => st
  | fuel + 1, node, st =>
    let st := { st with visited := node :: st.visited
                        recursionStack := node :: st.recursionStack
                        path := st.path ++ [node] }
    let st := (graphDeps graph node).foldl
      (fun st dep =>
        if !(st.visited.contains dep) then
          dfsVisit graph fuel dep st
        else if st.recursionStack.contains dep then
          -- found a cycle at a back-edge
          if st.path.contains dep then
            let cycle := st.path.drop (st.path.indexOf dep)
            if !(isCycleAlreadyFound st.cycles cycle) then
              { st with cycles :=
                  st.cycles ++ [ { cycle := cycle, length := cycle.length } ] }
            else st
          else st
        else st)
      st
    { st with path := st.path.dropLast
              recursionStack := st.recursionStack.erase node }

/-- Fuel exceeding the number of nodes the DFS can ever stack: every key
plus every dependency entry, plus one. -/
def dfsFuel (graph : List (String × List String)) : Nat :=
  graph.length + (graph.map (fun p => p.2.length)).sum + 1

/-- `DependencyAnalyzer.detectCircularDependencies(dependencyGraph)`:
depth-first search from each unvisited key, in map iteration order. -/
def detectCircularDependencies (graph : List (String × List String)) :
    List CircularDependency :=
  let st := graph.foldl
    (fun st p =>
      if !(st.visited.contains p.1) then dfsVisit graph (dfsFuel graph) p.1 st
      else st)
    { visited := [], recursionStack := [], path := [], cycles := [] }
  st.cycles

/-- Update the value at a key of an association list in place (no-op when
the key is absent), as mutating `metrics.get(key)` does. -/
def updAssoc {β : Type} (m : List (String × β)) (key : String) (f : β → β) :
    List (String × β) :=
  m.map fun p => if p.1 = key then (p.1, f p.2) else p

/-- `DependencyAnalyzer.calculateCouplingMetrics(dependencyGraph,
parsedFiles)`: initialize a metric record per file, fill efferent coupling
and the reverse map from the graph, count afferent coupling, then derive
instability = Ce/(Ca+Ce), or 0 when both are 0. -/
def calculateCouplingMetrics (graph : List (String × List String))
    (files : List String) : List (String × FileCouplingMetrics) :=
  let init : List (String × FileCouplingMetrics) := files.foldl
    (fun m f => aset m f
      { filePath := f, afferentCoupling := 0, efferentCoupling := 0,
        instability := 0, dependsOn := [], dependedOnBy := [] })
    []
  let filled := graph.foldl
    (fun m p =>
      match alookup m p.1 with
      | none => m
      | some _ =>
        let m := updAssoc m p.1 fun fm =>
          { fm with efferentCoupling := p.2.length, dependsOn := p.2 }
        p.2.foldl
          (fun m dep => updAssoc m dep fun dm =>
            { dm with afferentCoupling := dm.afferentCoupling + 1
                      dependedOnBy := dm.dependedOnBy ++ [p.1] })
          m)
    init
  filled.map fun p =>
    let total := p.2.afferentCoupling + p.2.efferentCoupling
    (p.1,
      { p.2 with instability :=
          if total > 0 then (p.2.efferentCoupling : ℚ) / (total : ℚ) else 0 })

/-- `DependencyAnalysisResult`. -/
structure DependencyAnalysisResult where
  fileMetrics : List (String × FileCouplingMetrics)
  circularDependencies : List CircularDependency
  totalCircularDependencies : Nat

/-- `DependencyAnalyzer.analyze(parsedFiles)`, over the built graph. -/
def analyzeDeps (graph : List (String × List String)) (files : List String) :
    DependencyAnalysisResult :=
  { fileMetrics := calculateCouplingMetrics graph files
    circularDependencies := detectCircularDependencies graph
    totalCircularDependencies := (detectCircularDependencies graph).length }

/-! ## Concrete scenarios -/

/-- The body of `function f(){ return 1; }` as the metrics collector
traverses it: the name identifier and the block holding the return. -/
def fBodyReturnLiteral : MetricForest :=
  .cons (.identNode "f")
    (.cons (.blockNode (.cons (.returnExpr .literalNode) .nil)) .nil)

/-- The spec's scenario file `a.ts`:
`export const X = 1;\nexport function f(){ return 1; }`. -/
def aTsV1 : SourceFile :=
  { lines := [ "export const X = 1;", "export function f(){ return 1; }" ]
    statements :=
      [ .varStmt ⟨0, 0, 0⟩ true false
          [ { name := some "X", init := some .otherExpr } ]
      , .funcDecl { span := ⟨1, 0, 1⟩, name := "f", exported := true,
                    isDefault := false, isAsync := false, paramCount := 0,
                    children := fBodyReturnLiteral } ] }

/-- `a.ts` after the edit replacing `return 1` with `return 2` inside `f`'s
body (same structure, line 2 changed). -/
def aTsV2 : SourceFile :=
  { lines := [ "export const X = 1;", "export function f(){ return 2; }" ]
    statements :=
      [ .varStmt ⟨0, 0, 0⟩ true false
          [ { name := some "X", init := some .otherExpr } ]
      , .funcDecl { span := ⟨1, 0, 1⟩, name := "f", exported := true,
                    isDefault := false, isAsync := false, paramCount := 0,
                    children := fBodyReturnLiteral } ] }

/-- The incremental-parser run of the scenario: first parse of `a.ts`, then
the edit of line 2 (1-indexed, zero line delta, as the VS Code change event
reports it). -/
def aTsEditResult : IncrementalParseResult × IncState :=
  parseIncremental (parseIncremental emptyIncState "a.ts" aTsV1 none).2
    "a.ts" aTsV2 (some ⟨2, 2, 0⟩)

/-- A one-line function body block with a single return, for the C3
scenario files. -/
def bodyReturn : MetricForest :=
  .cons (.blockNode (.cons (.returnExpr .literalNode) .nil)) .nil

/-- A one-line exported function declaration named `nm` on 0-indexed line
`l`. -/
def lineFunc (nm : String) (l : Nat) (isAsync : Bool) : Statement :=
  .funcDecl { span := ⟨l, 0, l⟩, name := nm, exported := true,
              isDefault := false, isAsync := isAsync, paramCount := 0,
              children := bodyReturn }

/-- The C3 scenario's original file: two exported functions separated by a
blank line. -/
def c3Original : SourceFile :=
  { lines := [ "export function a(){ return 1; }", "",
               "export function b(){ return 2; }" ]
    statements := [ lineFunc "a" 0 false, lineFunc "b" 2 false ] }

/-- The C3 scenario's edited file: a new top-level exported declaration
`export async function g(){ return 3; }` inserted on line 2, between the two
existing symbols.  The `async` keyword is not in the signature regex's
keyword alternation, so `quickDeclarationCount` does not see the new
declaration. -/
def c3Async : SourceFile :=
  { lines := [ "export function a(){ return 1; }",
               "export async function g(){ return 3; }", "",
               "export function b(){ return 2; }" ]
    statements := [ lineFunc "a" 0 false, lineFunc "g" 1 true,
                    lineFunc "b" 3 false ] }

/-- The same insertion point, but inserting
`export function g(){ return 3; }`, which the signature regex does count. -/
def c3Plain : SourceFile :=
  { lines := [ "export function a(){ return 1; }",
               "export function g(){ return 3; }", "",
               "export function b(){ return 2; }" ]
    statements := [ lineFunc "a" 0 false, lineFunc "g" 1 false,
                    lineFunc "b" 3 false ] }

/-- The parser cache after the first full parse of the C3 original file. -/
def c3State : IncState :=
  (parseIncremental emptyIncState "t.ts" c3Original none).2

/-- The edit descriptor of the C3 insertion: one line inserted at line 2. -/
def c3Edit : EditInfo := ⟨2, 2, 1⟩

/-- A function declaration named `use_foo`: the name starts with `use` but
its fourth character `_` is not an uppercase letter. -/
def useFooFd : FuncDeclView :=
  { span := ⟨0, 0, 0⟩, name := "use_foo", exported := true,
    isDefault := false, isAsync := false, paramCount := 0,
    children := bodyReturn }

/-- A function declaration named `useState`. -/
def useStateFd : FuncDeclView :=
  { span := ⟨0, 0, 0⟩, name := "useState", exported := true,
    isDefault := false, isAsync := false, paramCount := 0,
    children := bodyReturn }

/-- A placeholder symbol for `Option.getD` in concrete statements. -/
def noSymbol : LightweightSymbol :=
  { name := "", kind := .functionKind, line := 0, endLine := 0, column := 0,
    exported := false, isDefault := false, linesOfCode := 0, complexity := 0,
    cognitiveComplexity := 0, parameterCount := 0, maxNestingDepth := 0,
    asyncMethodCount := 0, returnCount := 0, throwCount := 0 }

/-! ## The claims -/

/-- C1, counterexample.  On `a.ts` = `export const X = 1;\nexport function
f(){ return 1; }` the claim asserts that `f` has `linesOfCode = 1` and that
the `return 2` edit yields strategy `skip`; in fact `linesOfCode` is the
0-indexed end/start line difference `0`, and the edit's line range `[2, 2]`
contains `f`'s declaration line (the one-line function sits entirely on its
declaration line), which forces a full re-parse. -/
theorem c1_counterexample :
    ¬ ((parseFileSymbols aTsV1.statements false).length = 2 ∧
       ((parseFileSymbols aTsV1.statements false).get? 1).map
         (fun s => (s.name, s.linesOfCode, s.complexity)) = some ("f", 1, 1) ∧
       aTsEditResult.1.parseStrategy = ParseStrategy.skip ∧
       aTsEditResult.1.symbols.length = 2) := by
  decide

/-- C1, amended.  `a.ts` parses to exactly 2 symbols; `f` has
`linesOfCode = 0` and `complexity = 1`; the `return 2` edit (line 2, delta
0) yields strategy `full` — the edited line is `f`'s declaration line — and
the resulting symbol count is still 2. -/
theorem c1_amended :
    (parseFileSymbols aTsV1.statements false).length = 2 ∧
    ((parseFileSymbols aTsV1.statements false).get? 1).map
      (fun s => (s.name, s.linesOfCode, s.complexity)) = some ("f", 0, 1) ∧
    aTsEditResult.1.parseStrategy = ParseStrategy.full ∧
    aTsEditResult.1.symbols.length = 2 := by
  decide

/-- C3, counterexample.  Inserting the new top-level exported declaration
`export async function g(){ return 3; }` between two cached symbols leaves
the signature-regex declaration count unchanged (its keyword alternation
has no `async`), so `parseIncremental` returns strategy `partial`, not
`full`. -/
theorem c3_counterexample :
    (parseIncremental c3State "t.ts" c3Async (some c3Edit)).1.parseStrategy
        = ParseStrategy.partialReparse ∧
    ¬ ((parseIncremental c3State "t.ts" c3Async
          (some c3Edit)).1.parseStrategy = ParseStrategy.full) := by
  decide

/-- The declaration-line filter of `tryPartialParse` is empty when the edit
range touches no cached declaration line. -/
theorem affected_filter_nil (symbols : List CachedSymbol) (ei : EditInfo)
    (hdecl : ∀ sym ∈ symbols,
      ¬ (ei.startLine ≤ sym.declarationLine ∧
         sym.declarationLine ≤ ei.endLine)) :
    symbols.filter (fun sym =>
        decide (ei.startLine ≤ sym.declarationLine) &&
          decide (sym.declarationLine ≤ ei.endLine)) = [] := by
  rw [List.filter_eq_nil_iff]
  intro sym hs
  have h := hdecl sym hs
  simp only [Bool.and_eq_true, decide_eq_true_eq, not_and]
  intro h1 h2
  exact h ⟨h1, h2⟩

/-- The containing-symbol search of `tryPartialParse` fails when no cached
symbol's body contains the edit range. -/
theorem containing_find_none (symbols : List CachedSymbol) (ei : EditInfo)
    (hbody : ∀ sym ∈ symbols,
      ¬ (sym.declarationLine < ei.startLine ∧ ei.endLine ≤ sym.endLine)) :
    symbols.find? (fun sym =>
        decide (sym.declarationLine < ei.startLine) &&
          decide (ei.endLine ≤ sym.endLine)) = none := by
  rw [List.find?_eq_none]
  intro sym hs
  have h := hbody sym hs
  simp only [Bool.and_eq_true, decide_eq_true_eq, not_and]
  intro h1 h2
  exact h ⟨h1, h2⟩

/-- C3, amended.  An edit on a cached file whose range lies between the
cached symbols (it touches no declaration line and no symbol's body
contains it) yields strategy `full` whenever the signature-regex
declaration count of the new content differs from the cached symbol count —
in particular when the inserted top-level exported declaration is one the
regex's keyword alternation recognizes.  An inserted declaration the regex
does not recognize (such as `export async function`) can instead yield
`partial`, as the counterexample shows. -/
theorem c3_amended (st : IncState) (fp : String) (sf : SourceFile)
    (ei : EditInfo) (cached : FileCache)
    (hc : alookup st fp = some cached)
    (hh : ¬ (cached.contentHash = quickHash sf.content))
    (hdecl : ∀ sym ∈ cached.symbols,
      ¬ (ei.startLine ≤ sym.declarationLine ∧
         sym.declarationLine ≤ ei.endLine))
    (hbody : ∀ sym ∈ cached.symbols,
      ¬ (sym.declarationLine < ei.startLine ∧ ei.endLine ≤ sym.endLine))
    (hcount : ¬ (quickDeclarationCount sf.lines = cached.symbols.length)) :
    (parseIncremental st fp sf (some ei)).1.parseStrategy =
      ParseStrategy.full := by
  have hfilter := affected_filter_nil cached.symbols ei hdecl
  have hfind := containing_find_none cached.symbols ei hbody
  simp [parseIncremental, hc, hh, tryPartialParse, hfilter, hfind, hcount]

/-- C3, witness: inserting `export function g(){ return 3; }` (a
declaration the regex does count) between the two cached symbols raises the
quick declaration count to 3 against 2 cached symbols, and the strategy is
`full`. -/
theorem c3_witness :
    (parseIncremental c3State "t.ts" c3Plain (some c3Edit)).1.parseStrategy =
      ParseStrategy.full :=
  c3_amended c3State "t.ts" c3Plain c3Edit
    (cacheFile "t.ts" c3Original (fullParse c3Original))
    (by decide) (by decide) (by decide) (by decide) (by decide)

/-- C9, counterexample.  The extracted symbol for the function declaration
`use_foo` has kind `hook` although its name does not match `use[A-Z]…`:
JavaScript's `name[3] === name[3].toUpperCase()` is true for `_`, so the
claimed equivalence between kind `hook` and the `use[A-Z]…` pattern fails. -/
theorem c9_counterexample :
    ¬ (∀ s ∈ parseFileSymbols [ .funcDecl useFooFd ] false,
        (s.kind = SymbolKind.hookKind ↔ specHookPattern s.name = true)) := by
  decide

/-- C9, amended.  A function declaration's extracted symbol has kind `hook`
exactly when its name starts with `use`, has more than 3 characters, and
its fourth character equals its own uppercase form — true for uppercase
letters, and also for digits, `_` and other caseless characters; a name
matching the spec's `use[A-Z]…` is always classified `hook`, but not
conversely. -/
theorem c9_amended (fd : FuncDeclView) (isTsx : Bool)
    (s : LightweightSymbol)
    (h : nodeToSymbol (.funcDecl fd) isTsx = some s) :
    s.kind = SymbolKind.hookKind ↔
      (jsStartsWith fd.name "use" = true ∧ fd.name.length > 3 ∧
        charEqToUpperAt fd.name 3 = true) := by
  have hk : s.kind = detectReactHookOrComponent fd.name isTsx := by
    simp only [nodeToSymbol, Option.some.injEq] at h
    rw [← h]
  rw [hk]
  unfold detectReactHookOrComponent
  by_cases h1 :
      (jsStartsWith fd.name "use" && decide (fd.name.length > 3) &&
        charEqToUpperAt fd.name 3) = true
  · simp only [h1, if_true]
    simp only [Bool.and_eq_true, decide_eq_true_eq] at h1
    simp [h1.1.1, h1.1.2, h1.2]
  · rw [if_neg (by simpa using h1)]
    simp only [Bool.and_eq_true, decide_eq_true_eq, not_and] at h1
    constructor
    · intro hcontra
      by_cases h2 : (isTsx && charEqToUpperAt fd.name 0 &&
          firstCharIsAZ fd.name) = true
      · rw [if_pos (by simpa using h2)] at hcontra
        exact absurd hcontra (by decide)
      · rw [if_neg (by simpa using h2)] at hcontra
        exact absurd hcontra (by decide)
    · intro ⟨ha, hb, hd⟩
      exact absurd hd (by
        intro hd
        exact absurd (h1 ⟨ha, hb⟩ : ¬ _) (by simp [hd]))

/-- C9, witness: the `useState` declaration's symbol, whose kind is `hook`
and whose name satisfies the amended condition. -/
theorem c9_witness :
    nodeToSymbol (.funcDecl useStateFd) false =
      some ((nodeToSymbol (.funcDecl useStateFd) false).getD noSymbol) ∧
    (((nodeToSymbol (.funcDecl useStateFd) false).getD noSymbol).kind =
        SymbolKind.hookKind ↔
      (jsStartsWith "useState" "use" = true ∧ ("useState".length > 3) ∧
        charEqToUpperAt "useState" 3 = true)) :=
  ⟨by decide,
    c9_amended useStateFd false
      ((nodeToSymbol (.funcDecl useStateFd) false).getD noSymbol)
      (by decide)⟩

/-- C7: re-parsing a cached file whose new content hashes to the cached
hash returns strategy `skip`, no affected symbols, exactly the cached
symbol list, and leaves the parser's cache untouched. -/
theorem c7_unchanged_idempotent (st : IncState) (fp : String)
    (sf : SourceFile) (ei : Option EditInfo) (cached : FileCache)
    (hc : alookup st fp = some cached)
    (hh : cached.contentHash = quickHash sf.content) :
    parseIncremental st fp sf ei =
      ({ symbols := cached.symbols
         parseStrategy := ParseStrategy.skip
         affectedSymbols := [] }, st) := by
  simp [parseIncremental, hc, hh]

/-- C7, witness: re-parsing the unchanged `a.ts` after its first parse. -/
theorem c7_witness :
    parseIncremental (parseIncremental emptyIncState "a.ts" aTsV1 none).2
        "a.ts" aTsV1 none =
      ({ symbols := (cacheFile "a.ts" aTsV1 (fullParse aTsV1)).symbols
         parseStrategy := ParseStrategy.skip
         affectedSymbols := [] },
       (parseIncremental emptyIncState "a.ts" aTsV1 none).2) :=
  c7_unchanged_idempotent _ "a.ts" aTsV1 none
    (cacheFile "a.ts" aTsV1 (fullParse aTsV1)) (by decide) (by decide)

/-- The skip path of `tryPartialParse`: when the edit touches no cached
declaration line and some cached symbol's body contains it, the result is
the line-shifted symbol list with strategy `skip`. -/
theorem tryPartialParse_skip (sf : SourceFile) (cached : FileCache)
    (ei : EditInfo)
    (hdecl : ∀ sym ∈ cached.symbols,
      ¬ (ei.startLine ≤ sym.declarationLine ∧
         sym.declarationLine ≤ ei.endLine))
    (hbody : ∃ sym ∈ cached.symbols,
      sym.declarationLine < ei.startLine ∧ ei.endLine ≤ sym.endLine) :
    tryPartialParse sf cached ei =
      some (adjustLineNumbers cached.symbols ei, ParseStrategy.skip) := by
  have hfilter := affected_filter_nil cached.symbols ei hdecl
  have hfind : (cached.symbols.find? (fun sym =>
      decide (sym.declarationLine < ei.startLine) &&
        decide (ei.endLine ≤ sym.endLine))).isSome := by
    rw [List.find?_isSome]
    obtain ⟨sym, hs, h1, h2⟩ := hbody
    exact ⟨sym, hs, by simp [h1, h2]⟩
  obtain ⟨v, hv⟩ := Option.isSome_iff_exists.mp hfind
  unfold tryPartialParse
  rw [hfilter, hv]
  simp

/-- The skip path seen from `parseIncremental`: result and new cache. -/
theorem parseIncremental_skip_path (st : IncState) (fp : String)
    (sf : SourceFile) (ei : EditInfo) (cached : FileCache)
    (hc : alookup st fp = some cached)
    (hh : ¬ (cached.contentHash = quickHash sf.content))
    (hdecl : ∀ sym ∈ cached.symbols,
      ¬ (ei.startLine ≤ sym.declarationLine ∧
         sym.declarationLine ≤ ei.endLine))
    (hbody : ∃ sym ∈ cached.symbols,
      sym.declarationLine < ei.startLine ∧ ei.endLine ≤ sym.endLine) :
    parseIncremental st fp sf (some ei) =
      ({ symbols := adjustLineNumbers cached.symbols ei
         parseStrategy := ParseStrategy.skip
         affectedSymbols := [] },
       aset st fp (cacheFile fp sf (adjustLineNumbers cached.symbols ei))) := by
  have h := tryPartialParse_skip sf cached ei hdecl hbody
  simp [parseIncremental, hc, hh, h]

/-- C2: an edit strictly inside one cached symbol's body (after its
declaration line and not past its end line) that touches no declaration
line yields strategy `skip`; the returned list is the cached list with
line numbers adjusted, every symbol keeps its name and kind, and every
symbol entirely after the edit has `startLine`, `endLine` and
`declarationLine` shifted by exactly the edit's line delta. -/
theorem c2_body_edit_skip (st : IncState) (fp : String) (sf : SourceFile)
    (ei : EditInfo) (cached : FileCache)
    (hc : alookup st fp = some cached)
    (hh : ¬ (cached.contentHash = quickHash sf.content))
    (hdecl : ∀ sym ∈ cached.symbols,
      ¬ (ei.startLine ≤ sym.declarationLine ∧
         sym.declarationLine ≤ ei.endLine))
    (hbody : ∃ sym ∈ cached.symbols,
      sym.declarationLine < ei.startLine ∧ ei.endLine ≤ sym.endLine) :
    (parseIncremental st fp sf (some ei)).1.parseStrategy =
        ParseStrategy.skip ∧
    (parseIncremental st fp sf (some ei)).1.symbols =
        cached.symbols.map (adjustSymbol ei) ∧
    (∀ sym ∈ cached.symbols,
      (adjustSymbol ei sym).name = sym.name ∧
      (adjustSymbol ei sym).kind = sym.kind) ∧
    (∀ sym ∈ cached.symbols, sym.startLine > ei.endLine →
      adjustSymbol ei sym =
        { sym with startLine := sym.startLine + ei.linesDelta
                   endLine := sym.endLine + ei.linesDelta
                   declarationLine := sym.declarationLine + ei.linesDelta }) := by
  have h := parseIncremental_skip_path st fp sf ei cached hc hh hdecl hbody
  refine ⟨by rw [h], by rw [h]; rfl, ?_, ?_⟩
  · intro sym _
    unfold adjustSymbol
    split
    · exact ⟨rfl, rfl⟩
    · split
      · exact ⟨rfl, rfl⟩
      · exact ⟨rfl, rfl⟩
  · intro sym _ hafter
    unfold adjustSymbol
    rw [if_pos hafter]

/-- C10: when the skip path resolves a body-interior edit, the containing
symbol is updated frame-preservingly — only its `endLine` moves, by exactly
the line delta, while `name`, `kind`, `startLine`, `declarationLine` and
`contentHash` keep their cached values — and every symbol lying entirely
before the edit range is returned completely unchanged. -/
theorem c10_skip_frame (st : IncState) (fp : String) (sf : SourceFile)
    (ei : EditInfo) (cached : FileCache)
    (hc : alookup st fp = some cached)
    (hh : ¬ (cached.contentHash = quickHash sf.content))
    (hdecl : ∀ sym ∈ cached.symbols,
      ¬ (ei.startLine ≤ sym.declarationLine ∧
         sym.declarationLine ≤ ei.endLine))
    (hbody : ∃ sym ∈ cached.symbols,
      sym.declarationLine < ei.startLine ∧ ei.endLine ≤ sym.endLine)
    (hei : ei.startLine ≤ ei.endLine) :
    (parseIncremental st fp sf (some ei)).1.parseStrategy =
        ParseStrategy.skip ∧
    (parseIncremental st fp sf (some ei)).1.symbols =
        cached.symbols.map (adjustSymbol ei) ∧
    (∀ sym ∈ cached.symbols,
      (sym.startLine ≤ sym.declarationLine →
        sym.declarationLine < ei.startLine → ei.endLine ≤ sym.endLine →
        adjustSymbol ei sym = { sym with endLine := sym.endLine + ei.linesDelta }) ∧
      (sym.startLine ≤ sym.endLine → sym.endLine < ei.startLine →
        adjustSymbol ei sym = sym)) := by
  have h := parseIncremental_skip_path st fp sf ei cached hc hh hdecl hbody
  refine ⟨by rw [h], by rw [h]; rfl, ?_⟩
  intro sym _
  constructor
  · intro h1 h2 h3
    unfold adjustSymbol
    rw [if_neg (by omega), if_pos (by omega)]
  · intro h1 h2
    unfold adjustSymbol
    rw [if_neg (by omega), if_neg (by omega)]

/-- The C2/C10 concrete scenario file: a three-line function `a` followed
by a one-line function `b`. -/
def c2Original : SourceFile :=
  { lines := [ "export function a()\x7b", "  return 1;", "\x7d",
               "export function b(){ return 2; }" ]
    statements :=
      [ .funcDecl { span := ⟨0, 0, 2⟩, name := "a", exported := true,
                    isDefault := false, isAsync := false, paramCount := 0,
                    children := bodyReturn }
      , lineFunc "b" 3 false ] }

/-- The same file with line 2 (inside `a`'s body) edited in place. -/
def c2Edited : SourceFile :=
  { lines := [ "export function a()\x7b", "  return 9;", "\x7d",
               "export function b(){ return 2; }" ]
    statements :=
      [ .funcDecl { span := ⟨0, 0, 2⟩, name := "a", exported := true,
                    isDefault := false, isAsync := false, paramCount := 0,
                    children := bodyReturn }
      , lineFunc "b" 3 false ] }

/-- The cached state of the C2/C10 scenario after the first full parse. -/
def c2Cache : FileCache := cacheFile "w.ts" c2Original (fullParse c2Original)

/-- C2, witness: editing line 2 of the scenario file (inside `a`'s body,
lines 1-3, declaration on line 1; `b` sits on line 4). -/
theorem c2_witness :
    ((parseIncremental [ ("w.ts", c2Cache) ] "w.ts" c2Edited
        (some ⟨2, 2, 0⟩)).1.parseStrategy = ParseStrategy.skip ∧
     (parseIncremental [ ("w.ts", c2Cache) ] "w.ts" c2Edited
        (some ⟨2, 2, 0⟩)).1.symbols =
       c2Cache.symbols.map (adjustSymbol ⟨2, 2, 0⟩) ∧
     (∀ sym ∈ c2Cache.symbols,
       (adjustSymbol ⟨2, 2, 0⟩ sym).name = sym.name ∧
       (adjustSymbol ⟨2, 2, 0⟩ sym).kind = sym.kind) ∧
     (∀ sym ∈ c2Cache.symbols, sym.startLine > (2 : Int) →
       adjustSymbol ⟨2, 2, 0⟩ sym =
         { sym with startLine := sym.startLine + 0
                    endLine := sym.endLine + 0
                    declarationLine := sym.declarationLine + 0 })) :=
  c2_body_edit_skip [ ("w.ts", c2Cache) ] "w.ts" c2Edited ⟨2, 2, 0⟩ c2Cache
    (by decide) (by decide) (by decide) (by decide)

/-- C10, witness: the same body-interior edit, one line inserted
(delta 1). -/
theorem c10_witness :
    ((parseIncremental [ ("w.ts", c2Cache) ] "w.ts" c2Edited
        (some ⟨2, 2, 1⟩)).1.parseStrategy = ParseStrategy.skip ∧
     (parseIncremental [ ("w.ts", c2Cache) ] "w.ts" c2Edited
        (some ⟨2, 2, 1⟩)).1.symbols =
       c2Cache.symbols.map (adjustSymbol ⟨2, 2, 1⟩) ∧
     (∀ sym ∈ c2Cache.symbols,
       (sym.startLine ≤ sym.declarationLine →
         sym.declarationLine < (2 : Int) → (2 : Int) ≤ sym.endLine →
         adjustSymbol ⟨2, 2, 1⟩ sym =
           { sym with endLine := sym.endLine + 1 }) ∧
       (sym.startLine ≤ sym.endLine → sym.endLine < (2 : Int) →
         adjustSymbol ⟨2, 2, 1⟩ sym = sym))) :=
  c10_skip_frame [ ("w.ts", c2Cache) ] "w.ts" c2Edited ⟨2, 2, 1⟩ c2Cache
    (by decide) (by decide) (by decide) (by decide) (by decide)

/-- The L2 path serves only data whose stored hash equals the current
hash. -/
theorem getFromL2_hash {α : Type} (sz : CacheEntry α → Int)
    (st : CacheManagerState α) (key hash : String) (d : α)
    (hres : (getFromL2 sz st key hash).1 = some d) :
    ∃ e, alookup st.l2 key = some e ∧ e.hash = hash ∧ e.data = d := by
  unfold getFromL2 at hres
  split at hres
  next e hl =>
    split at hres
    next he =>
      simp only [Option.some.injEq] at hres
      exact ⟨e, hl, he, hres⟩
    next => simp at hres
  next => simp at hres

/-- C4: `CacheManager.get` never serves a stored entry whose hash differs
from the current content hash — whenever it returns data, that data comes
from an L1 or L2 entry whose stored hash equals the current hash; a
mismatching entry in either tier falls through to the other tier or to a
miss. -/
theorem c4_hash_guard {α : Type} (sz : CacheEntry α → Int)
    (st : CacheManagerState α) (fp h : String) (d : α)
    (hres : (getCM sz st fp (some h)).1 = some d) :
    (∃ e, alookup st.l1Cache (getCacheKey fp) = some e ∧
      e.hash = h ∧ e.data = d) ∨
    (∃ e, alookup st.l2 (getCacheKey fp) = some e ∧
      e.hash = h ∧ e.data = d) := by
  simp only [getCM] at hres
  unfold getAtKey at hres
  split at hres
  next e hl1 =>
    split at hres
    next he =>
      simp only [Option.some.injEq] at hres
      exact Or.inl ⟨e, hl1, he, hres⟩
    next => exact Or.inr (getFromL2_hash sz st (getCacheKey fp) h d hres)
  next => exact Or.inr (getFromL2_hash sz st (getCacheKey fp) h d hres)

/-- A flat size estimate for the concrete cache scenarios (the source's
`estimateSize` depends only on the entry). -/
def flatSize : CacheEntry Nat → Int := fun _ => 10

/-- A cache state holding one freshly set entry for `a.ts`. -/
def oneEntryState : CacheManagerState Nat :=
  setCM flatSize (initCacheState Nat 100) "a.ts" 7 "v1" 0

/-- C4, witness: a get against the matching content hash serves the stored
data, from a tier whose entry carries that hash. -/
theorem c4_witness :
    (getCM flatSize oneEntryState "a.ts" (some "v1")).1 = some 7 ∧
    ((∃ e, alookup oneEntryState.l1Cache (getCacheKey "a.ts") = some e ∧
        e.hash = "v1" ∧ e.data = 7) ∨
     (∃ e, alookup oneEntryState.l2 (getCacheKey "a.ts") = some e ∧
        e.hash = "v1" ∧ e.data = 7)) :=
  ⟨by decide, c4_hash_guard flatSize oneEntryState "a.ts" "v1" 7 (by decide)⟩

/-- A cache state holding one entry for `a.ts` with payload 42. -/
def c6State : CacheManagerState Nat :=
  setCM flatSize (initCacheState Nat 100) "a.ts" 42 "content1" 0

/-- C6, the code's behaviour at the failing input: after `clear()` the
statistics read all zeros as claimed, but the L2 tier is not cleared (the
source resets only L1 and the counters), so a get for the previously set
key with unchanged content is served from L2 — a hit, not the claimed
miss — and the hit counter moves off zero. -/
theorem c6_clear_keeps_l2 :
    getStats (clearCM c6State) =
      { hits := 0, misses := 0, size := 0, maxSize := 104857600,
        evictions := 0 } ∧
    (getCM flatSize (clearCM c6State) "a.ts" (some "content1")).1 =
      some 42 ∧
    (getStats
      ((getCM flatSize (clearCM c6State) "a.ts"
        (some "content1")).2)).hits = 1 := by
  decide

/-! ### Association-list lemmas for the eviction analysis -/

/-- `alookup` unfolded at a cons cell. -/
theorem alookup_cons {β : Type} (k : String) (v : β)
    (rest : List (String × β)) (key : String) :
    alookup ((k, v) :: rest) key = if k = key then some v else alookup rest key :=
  rfl

/-- `aerase` unfolded at a cons cell. -/
theorem aerase_cons {β : Type} (k : String) (v : β)
    (rest : List (String × β)) (key : String) :
    aerase ((k, v) :: rest) key =
      if k = key then rest else (k, v) :: aerase rest key :=
  rfl

/-- `aset` unfolded at a cons cell. -/
theorem aset_cons {β : Type} (k : String) (w : β)
    (rest : List (String × β)) (key : String) (v : β) :
    aset ((k, w) :: rest) key v =
      if k = key then (k, v) :: rest else (k, w) :: aset rest key v :=
  rfl

/-- A stored pair is found by `alookup` (possibly shadowed by an earlier
pair with the same key, but found either way). -/
theorem alookup_isSome_of_mem {β : Type} (m : List (String × β))
    (p : String × β) (hp : p ∈ m) : (alookup m p.1).isSome := by
  induction m with
  | nil => simp at hp
  | cons q rest ih =>
    obtain ⟨k, v⟩ := q
    rw [alookup_cons]
    rcases List.mem_cons.mp hp with h | h
    · subst h; simp
    · by_cases hk : k = p.1
      · simp [hk]
      · simpa [hk] using ih h

/-- A successful lookup means the key occurs among the stored keys. -/
theorem mem_keys_of_alookup_isSome {β : Type} (m : List (String × β))
    (key : String) (h : (alookup m key).isSome) :
    key ∈ m.map Prod.fst := by
  induction m with
  | nil => simp [alookup] at h
  | cons q rest ih =>
    obtain ⟨k, v⟩ := q
    rw [alookup_cons] at h
    by_cases hk : k = key
    · simp [hk]
    · rw [if_neg hk] at h
      simpa using Or.inr (ih h)

/-- A stored key is found. -/
theorem alookup_isSome_of_mem_keys {β : Type} (m : List (String × β))
    (key : String) (h : key ∈ m.map Prod.fst) :
    (alookup m key).isSome := by
  obtain ⟨p, hp, hk⟩ := List.mem_map.mp h
  exact hk ▸ alookup_isSome_of_mem m p hp

/-- `aerase` yields a sublist. -/
theorem aerase_sublist {β : Type} (m : List (String × β)) (key : String) :
    (aerase m key).Sublist m := by
  induction m with
  | nil => simp [aerase]
  | cons q rest ih =>
    obtain ⟨k, v⟩ := q
    rw [aerase_cons]
    by_cases hk : k = key
    · rw [if_pos hk]; exact List.sublist_cons_self _ _
    · rw [if_neg hk]; exact ih.cons₂ _

/-- Erasing a different key does not change with a lookup. -/
theorem alookup_aerase_ne {β : Type} (m : List (String × β))
    (key k : String) (h : k ≠ key) :
    alookup (aerase m key) k = alookup m k := by
  induction m with
  | nil => rfl
  | cons q rest ih =>
    obtain ⟨k', v⟩ := q
    rw [aerase_cons]
    by_cases hk : k' = key
    · rw [if_pos hk, alookup_cons, if_neg (by intro hh; exact h (hh ▸ hk))]
    · rw [if_neg hk, alookup_cons, alookup_cons, ih]

/-- With unique stored keys, the erased key is gone. -/
theorem alookup_aerase_self {β : Type} (m : List (String × β)) (key : String)
    (hm : (m.map Prod.fst).Nodup) : alookup (aerase m key) key = none := by
  induction m with
  | nil => rfl
  | cons q rest ih =>
    obtain ⟨k, v⟩ := q
    simp only [List.map_cons, List.nodup_cons] at hm
    rw [aerase_cons]
    by_cases hk : k = key
    · rw [if_pos hk]
      subst hk
      cases ho : alookup rest k with
      | none => rfl
      | some v' =>
        exact absurd (mem_keys_of_alookup_isSome rest k (by simp [ho])) hm.1
    · rw [if_neg hk, alookup_cons, if_neg hk]
      exact ih hm.2

/-- The key just set is found with its new value. -/
theorem alookup_aset_self {β : Type} (m : List (String × β)) (key : String)
    (v : β) : alookup (aset m key v) key = some v := by
  induction m with
  | nil => simp [aset, alookup_cons, alookup]
  | cons q rest ih =>
    obtain ⟨k, w⟩ := q
    rw [aset_cons]
    by_cases hk : k = key
    · rw [if_pos hk, alookup_cons, if_pos hk]
    · rw [if_neg hk, alookup_cons, if_neg hk]; exact ih

/-- Setting a different key does not change a lookup. -/
theorem alookup_aset_ne {β : Type} (m : List (String × β)) (key k : String)
    (v : β) (h : k ≠ key) :
    alookup (aset m key v) k = alookup m k := by
  induction m with
  | nil =>
    simp only [aset, alookup_cons, alookup]
    rw [if_neg (fun hh => h hh.symm)]
  | cons q rest ih =>
    obtain ⟨k', w⟩ := q
    rw [aset_cons]
    by_cases hk : k' = key
    · rw [if_pos hk, alookup_cons, alookup_cons,
          if_neg (by intro hh; exact h (hh ▸ hk)), if_neg (by intro hh; exact h (hh ▸ hk))]
    · rw [if_neg hk, alookup_cons, alookup_cons, ih]

/-- Every pair of `aset m key v` is the new pair or one of `m`. -/
theorem mem_aset {β : Type} (m : List (String × β)) (key : String) (v : β)
    (p : String × β) (hp : p ∈ aset m key v) :
    p = (key, v) ∨ p ∈ m := by
  induction m with
  | nil => simpa [aset] using hp
  | cons q rest ih =>
    obtain ⟨k, w⟩ := q
    rw [aset_cons] at hp
    by_cases hk : k = key
    · rw [if_pos hk] at hp
      rcases List.mem_cons.mp hp with h | h
      · left; rw [h, hk]
      · right; exact List.mem_cons_of_mem _ h
    · rw [if_neg hk] at hp
      rcases List.mem_cons.mp hp with h | h
      · right; rw [h]; exact List.mem_cons_self _ _
      · rcases ih h with h' | h'
        · left; exact h'
        · right; exact List.mem_cons_of_mem _ h'

/-- Setting an absent key appends it to the stored keys. -/
theorem aset_keys_of_none {β : Type} (m : List (String × β)) (key : String)
    (v : β) (h : alookup m key = none) :
    (aset m key v).map Prod.fst = m.map Prod.fst ++ [key] := by
  induction m with
  | nil => simp [aset]
  | cons q rest ih =>
    obtain ⟨k, w⟩ := q
    rw [alookup_cons] at h
    by_cases hk : k = key
    · rw [if_pos hk] at h; exact absurd h (by simp)
    · rw [if_neg hk] at h
      rw [aset_cons, if_neg hk]
      simp [ih h]

/-- The summed estimated size of the entries of `l1` at the given keys. -/
def evictedSize {α : Type} (sz : CacheEntry α → Int)
    (l1 : List (String × CacheEntry α)) : List String → Int
  | [] => 0
  | k :: rest =>
    match alookup l1 k with
    | some e => sz e + evictedSize sz l1 rest
    | none => evictedSize sz l1 rest

/-- `evictedSize` at a found head key. -/
theorem evictedSize_cons_some {α : Type} (sz : CacheEntry α → Int)
    (l1 : List (String × CacheEntry α)) (k : String) (keys : List String)
    (e : CacheEntry α) (h : alookup l1 k = some e) :
    evictedSize sz l1 (k :: keys) = sz e + evictedSize sz l1 keys := by
  conv_lhs => rw [evictedSize]
  rw [h]

/-- `evictedSize` only reads the lookups at the listed keys. -/
theorem evictedSize_congr {α : Type} (sz : CacheEntry α → Int)
    (m m' : List (String × CacheEntry α)) (keys : List String)
    (h : ∀ k ∈ keys, alookup m' k = alookup m k) :
    evictedSize sz m' keys = evictedSize sz m keys := by
  induction keys with
  | nil => rfl
  | cons k rest ih =>
    unfold evictedSize
    rw [h k (List.mem_cons_self k rest),
        ih (fun k' hk' => h k' (List.mem_cons_of_mem k hk'))]

/-- The defining characterization of the eviction loop: some count `n` of
entries is evicted, strictly from the front (oldest first) of the LRU
order; the eviction counter grows by exactly `n`; the byte counter drops by
the evicted entries' sizes; the loop keeps running exactly while the new
entry does not fit, and stops as soon as it fits or nothing is left. -/
theorem evictLoop_spec {α : Type} (sz : CacheEntry α → Int)
    (entrySize maxBytes : Int) (order : List String)
    (l1 : List (String × CacheEntry α)) (size : Int) (ev : Nat)
    (hcov : ∀ k ∈ order, (alookup l1 k).isSome)
    (hnd : order.Nodup)
    (hmap : (l1.map Prod.fst).Nodup) :
    ∃ n, n ≤ order.length ∧
      (evictLoop sz entrySize maxBytes order l1 size ev).1 = order.drop n ∧
      (evictLoop sz entrySize maxBytes order l1 size ev).2.2.2 = ev + n ∧
      (evictLoop sz entrySize maxBytes order l1 size ev).2.2.1 =
        size - evictedSize sz l1 (order.take n) ∧
      (evictLoop sz entrySize maxBytes order l1 size ev).2.1.Sublist l1 ∧
      (∀ k ∈ order.take n,
        alookup (evictLoop sz entrySize maxBytes order l1 size ev).2.1 k = none) ∧
      (∀ k, k ∉ order.take n →
        alookup (evictLoop sz entrySize maxBytes order l1 size ev).2.1 k =
          alookup l1 k) ∧
      (∀ j < n, size - evictedSize sz l1 (order.take j) + entrySize > maxBytes) ∧
      (n = order.length ∨
        size - evictedSize sz l1 (order.take n) + entrySize ≤ maxBytes) := by
  induction order generalizing l1 size ev with
  | nil =>
    refine ⟨0, by simp, ?_⟩
    have hloop : evictLoop sz entrySize maxBytes [] l1 size ev =
        ([], l1, size, ev) := rfl
    rw [hloop]
    refine ⟨rfl, rfl, by simp [evictedSize], List.Sublist.refl l1,
      by simp, fun k _ => rfl, by omega, Or.inl rfl⟩
  | cons oldest rest ih =>
    by_cases hfit : size + entrySize > maxBytes
    · -- the new entry does not fit: the oldest key is evicted
      have hsome : (alookup l1 oldest).isSome :=
        hcov oldest (List.mem_cons_self _ _)
      obtain ⟨old, hold⟩ := Option.isSome_iff_exists.mp hsome
      have holdest_rest : oldest ∉ rest := (List.nodup_cons.mp hnd).1
      have hcov' : ∀ k ∈ rest, (alookup (aerase l1 oldest) k).isSome := by
        intro k hk
        rw [alookup_aerase_ne l1 oldest k (fun hh => holdest_rest (hh ▸ hk))]
        exact hcov k (List.mem_cons_of_mem _ hk)
      have hnd' : rest.Nodup := (List.nodup_cons.mp hnd).2
      have hmap' : ((aerase l1 oldest).map Prod.fst).Nodup :=
        ((aerase_sublist l1 oldest).map Prod.fst).nodup hmap
      obtain ⟨n', hlen, hdrop, hev, hsize, hsub, hnone, hpres, hmin, hstop⟩ :=
        ih (aerase l1 oldest) (size - sz old) (ev + 1) hcov' hnd' hmap'
      have hstep : evictLoop sz entrySize maxBytes (oldest :: rest) l1 size ev =
          evictLoop sz entrySize maxBytes rest (aerase l1 oldest)
            (size - sz old) (ev + 1) := by
        conv_lhs => rw [evictLoop]
        rw [if_pos hfit, hold]
      have hsz_congr : ∀ keys : List String, (∀ k ∈ keys, k ∈ rest) →
          evictedSize sz (aerase l1 oldest) keys = evictedSize sz l1 keys := by
        intro keys hkeys
        refine evictedSize_congr sz l1 (aerase l1 oldest) keys (fun k hk => ?_)
        exact alookup_aerase_ne l1 oldest k
          (fun hh => holdest_rest (hh ▸ hkeys k hk))
      have htake : ∀ j : Nat, (oldest :: rest).take (j + 1) = oldest :: rest.take j :=
        fun j => rfl
      have hsize_eq : ∀ j : Nat, j ≤ rest.length →
          size - evictedSize sz l1 ((oldest :: rest).take (j + 1)) =
            (size - sz old) - evictedSize sz (aerase l1 oldest) (rest.take j) := by
        intro j _
        rw [htake j, evictedSize_cons_some sz l1 oldest (rest.take j) old hold,
            hsz_congr (rest.take j) (fun k hk => List.mem_of_mem_take hk)]
        omega
      refine ⟨n' + 1, by simpa using Nat.succ_le_succ hlen, ?_, ?_, ?_, ?_, ?_, ?_, ?_, ?_⟩
      · rw [hstep, hdrop, List.drop_succ_cons]
      · rw [hstep, hev]; omega
      · rw [hstep, hsize, hsize_eq n' hlen]
      · rw [hstep]; exact hsub.trans (aerase_sublist l1 oldest)
      · rw [hstep]
        intro k hk
        rw [htake n'] at hk
        rcases List.mem_cons.mp hk with h | h
        · subst h
          have hnotin : k ∉ rest.take n' :=
            fun hh => holdest_rest (List.mem_of_mem_take hh)
          rw [hpres k hnotin]
          exact alookup_aerase_self l1 k hmap
        · exact hnone k h
      · rw [hstep]
        intro k hk
        rw [htake n'] at hk
        have hne : k ≠ oldest := fun hh => hk (hh ▸ List.mem_cons_self _ _)
        have hnotin : k ∉ rest.take n' :=
          fun hh => hk (List.mem_cons_of_mem _ hh)
        rw [hpres k hnotin]
        exact alookup_aerase_ne l1 oldest k hne
      · intro j hj
        match j with
        | 0 => simpa [evictedSize] using hfit
        | j' + 1 =>
          have hj' : j' < n' := by omega
          have := hmin j' hj'
          rw [hsize_eq j' (by omega)]
          omega
      · rcases hstop with h | h
        · left; simp [h]
        · right
          rw [hsize_eq n' hlen]
          omega
    · -- the new entry fits: nothing is evicted
      have hloop : evictLoop sz entrySize maxBytes (oldest :: rest) l1 size ev =
          (oldest :: rest, l1, size, ev) := by
        conv_lhs => rw [evictLoop]
        rw [if_neg hfit]
      refine ⟨0, by simp, ?_⟩
      rw [hloop]
      refine ⟨rfl, rfl, by simp [evictedSize], List.Sublist.refl l1,
        by simp, fun k _ => rfl, by omega, Or.inr (by simp [evictedSize]; omega)⟩

/-- The entry `CacheManager.set` stores for a path, payload and content. -/
def newEntry {α : Type} (fp content : String) (now : Nat) (d : α) :
    CacheEntry α :=
  { key := getCacheKey fp, hash := content, timestamp := now, data := d,
    dependencies := [] }

/-- C5: on a well-formed L1 state (the LRU order lists exactly the stored
keys, without duplicates) a `set` with a fresh key evicts some count `n` of
entries, strictly the oldest first — the first `n` of the LRU order, in
which a `get` hit refreshes recency by moving its key to the end (last
conjunct) — continuing exactly while the new entry does not fit in the byte
budget and stopping as soon as it fits (or the cache is empty); the
evictions counter grows by exactly `n`, the evicted keys are gone from L1,
all other entries are untouched, and well-formedness is preserved, so the
same holds at every step of a sequence of sets with distinct keys. -/
theorem c5_lru_eviction {α : Type} (sz : CacheEntry α → Int)
    (st : CacheManagerState α) (fp : String) (d : α) (content : String)
    (now : Nat)
    (hcov : ∀ k ∈ st.l1Order, (alookup st.l1Cache k).isSome)
    (hmem : ∀ p ∈ st.l1Cache, p.1 ∈ st.l1Order)
    (hord : st.l1Order.Nodup)
    (hmap : (st.l1Cache.map Prod.fst).Nodup)
    (hfresh : getCacheKey fp ∉ st.l1Order) :
    ∃ n, n ≤ st.l1Order.length ∧
      (setCM sz st fp d content now).l1Order =
        st.l1Order.drop n ++ [getCacheKey fp] ∧
      (setCM sz st fp d content now).stats.evictions =
        st.stats.evictions + n ∧
      (∀ k ∈ st.l1Order.take n,
        alookup (setCM sz st fp d content now).l1Cache k = none) ∧
      (∀ k ∈ st.l1Order.drop n,
        alookup (setCM sz st fp d content now).l1Cache k =
          alookup st.l1Cache k) ∧
      alookup (setCM sz st fp d content now).l1Cache (getCacheKey fp) =
        some (newEntry fp content now d) ∧
      (∀ j < n,
        st.l1SizeBytes - evictedSize sz st.l1Cache (st.l1Order.take j) +
            sz (newEntry fp content now d) >
          (st.maxSizeMB : Int) * 1024 * 1024) ∧
      (n = st.l1Order.length ∨
        st.l1SizeBytes - evictedSize sz st.l1Cache (st.l1Order.take n) +
            sz (newEntry fp content now d) ≤
          (st.maxSizeMB : Int) * 1024 * 1024) ∧
      (∀ k ∈ (setCM sz st fp d content now).l1Order,
        (alookup (setCM sz st fp d content now).l1Cache k).isSome) ∧
      (∀ p ∈ (setCM sz st fp d content now).l1Cache,
        p.1 ∈ (setCM sz st fp d content now).l1Order) ∧
      (setCM sz st fp d content now).l1Order.Nodup ∧
      ((setCM sz st fp d content now).l1Cache.map Prod.fst).Nodup ∧
      (∀ (σ : CacheManagerState α) (fp2 h2 : String) (e : CacheEntry α),
        alookup σ.l1Cache (getCacheKey fp2) = some e → e.hash = h2 →
        getCacheKey fp2 ∈ σ.l1Order →
        (getCM sz σ fp2 (some h2)).2.l1Order =
          σ.l1Order.erase (getCacheKey fp2) ++ [getCacheKey fp2]) := by
  obtain ⟨n, hlen, hdrop, hev, hsize, hsub, hnone, hpres, hmin, hstop⟩ :=
    evictLoop_spec sz (sz (newEntry fp content now d))
      ((st.maxSizeMB : Int) * 1024 * 1024) st.l1Order st.l1Cache
      st.l1SizeBytes st.stats.evictions hcov hord hmap
  have hcache : (setCM sz st fp d content now).l1Cache =
      aset (evictLoop sz (sz (newEntry fp content now d))
        ((st.maxSizeMB : Int) * 1024 * 1024) st.l1Order st.l1Cache
        st.l1SizeBytes st.stats.evictions).2.1 (getCacheKey fp)
        (newEntry fp content now d) := rfl
  have horder : (setCM sz st fp d content now).l1Order =
      (evictLoop sz (sz (newEntry fp content now d))
        ((st.maxSizeMB : Int) * 1024 * 1024) st.l1Order st.l1Cache
        st.l1SizeBytes st.stats.evictions).1 ++ [getCacheKey fp] := rfl
  have hevic : (setCM sz st fp d content now).stats.evictions =
      (evictLoop sz (sz (newEntry fp content now d))
        ((st.maxSizeMB : Int) * 1024 * 1024) st.l1Order st.l1Cache
        st.l1SizeBytes st.stats.evictions).2.2.2 := rfl
  have hdisj : List.Disjoint (st.l1Order.take n) (st.l1Order.drop n) := by
    have h := hord
    rw [← List.take_append_drop n st.l1Order] at h
    exact (List.nodup_append.mp h).2.2
  have htakesub : ∀ k ∈ st.l1Order.take n, k ∈ st.l1Order :=
    fun k hk => List.mem_of_mem_take hk
  have hdropsub : ∀ k ∈ st.l1Order.drop n, k ∈ st.l1Order :=
    fun k hk => List.mem_of_mem_drop hk
  have hkeyfresh : ∀ k ∈ st.l1Order, k ≠ getCacheKey fp :=
    fun k hk hh => hfresh (hh ▸ hk)
  have hlookupkey : alookup st.l1Cache (getCacheKey fp) = none := by
    cases hl : alookup st.l1Cache (getCacheKey fp) with
    | none => rfl
    | some e =>
      obtain ⟨p, hp, hpk⟩ := List.mem_map.mp
        (mem_keys_of_alookup_isSome st.l1Cache (getCacheKey fp) (by simp [hl]))
      exact absurd (hpk ▸ hmem p hp) hfresh
  have hkeynotake : getCacheKey fp ∉ st.l1Order.take n :=
    fun hh => hfresh (htakesub _ hh)
  have hMkey : alookup (evictLoop sz (sz (newEntry fp content now d))
      ((st.maxSizeMB : Int) * 1024 * 1024) st.l1Order st.l1Cache
      st.l1SizeBytes st.stats.evictions).2.1 (getCacheKey fp) = none := by
    rw [hpres _ hkeynotake, hlookupkey]
  refine ⟨n, hlen, ?_, ?_, ?_, ?_, ?_, hmin, hstop, ?_, ?_, ?_, ?_, ?_⟩
  · rw [horder, hdrop]
  · rw [hevic, hev]
  · intro k hk
    rw [hcache, alookup_aset_ne _ _ _ _ (hkeyfresh k (htakesub k hk)),
        hnone k hk]
  · intro k hk
    rw [hcache, alookup_aset_ne _ _ _ _ (hkeyfresh k (hdropsub k hk)),
        hpres k (fun hh => hdisj hh hk)]
  · rw [hcache, alookup_aset_self]
  · intro k hk
    rw [horder, hdrop] at hk
    rcases List.mem_append.mp hk with h | h
    · rw [hcache, alookup_aset_ne _ _ _ _ (hkeyfresh k (hdropsub k h)),
          hpres k (fun hh => hdisj hh h)]
      exact hcov k (hdropsub k h)
    · have : k = getCacheKey fp := by simpa using h
      subst this
      rw [hcache, alookup_aset_self]
      rfl
  · intro p hp
    rw [hcache] at hp
    rcases mem_aset _ _ _ p hp with h | h
    · rw [horder]
      exact List.mem_append.mpr (Or.inr (by simp [h]))
    · have hmem' : p.1 ∈ st.l1Order := hmem p (hsub.subset h)
      rw [← List.take_append_drop n st.l1Order] at hmem'
      rcases List.mem_append.mp hmem' with h' | h'
      · exact absurd (alookup_isSome_of_mem _ p h)
          (by rw [hnone p.1 h']; simp)
      · rw [horder]
        exact List.mem_append.mpr (Or.inl (by rw [hdrop]; exact h'))
  · rw [horder, hdrop]
    rw [List.nodup_append]
    refine ⟨hord.sublist (List.drop_sublist n st.l1Order), List.nodup_singleton _, ?_⟩
    intro k hk
    simp only [List.mem_singleton]
    exact hkeyfresh k (hdropsub k hk)
  · rw [hcache, aset_keys_of_none _ _ _ hMkey, List.nodup_append]
    refine ⟨(hsub.map Prod.fst).nodup hmap, List.nodup_singleton _, ?_⟩
    intro k hk
    simp only [List.mem_singleton]
    intro hh
    subst hh
    exact absurd (alookup_isSome_of_mem_keys _ _ hk) (by rw [hMkey]; simp)
  · intro σ fp2 h2 e hlook hhash hmemo
    have : (getCM sz σ fp2 (some h2)).2.l1Order = (touchL1 σ (getCacheKey fp2)).l1Order := by
      simp [getCM, getAtKey, hlook, hhash]
    rw [this]
    unfold touchL1
    rw [if_pos (by simpa using hmemo)]

/-- A one-entry cache state under a zero-byte budget (every megabyte-scale
budget value is a multiple of 1024²; zero keeps the witness arithmetic
small while still forcing an eviction). -/
def tinyState : CacheManagerState Nat :=
  setCM flatSize (initCacheState Nat 0) "k1" 1 "c1" 0

/-- C5, witness: setting a second, distinct key against the zero budget
evicts the first entry (the oldest), and the counter counts it. -/
theorem c5_witness :
    (∀ k ∈ tinyState.l1Order, (alookup tinyState.l1Cache k).isSome) ∧
    (∃ n, n ≤ tinyState.l1Order.length ∧
      (setCM flatSize tinyState "k2" 2 "c2" 1).l1Order =
        tinyState.l1Order.drop n ++ [getCacheKey "k2"] ∧
      (setCM flatSize tinyState "k2" 2 "c2" 1).stats.evictions =
        tinyState.stats.evictions + n ∧
      (∀ k ∈ tinyState.l1Order.take n,
        alookup (setCM flatSize tinyState "k2" 2 "c2" 1).l1Cache k = none) ∧
      (∀ k ∈ tinyState.l1Order.drop n,
        alookup (setCM flatSize tinyState "k2" 2 "c2" 1).l1Cache k =
          alookup tinyState.l1Cache k) ∧
      alookup (setCM flatSize tinyState "k2" 2 "c2" 1).l1Cache (getCacheKey "k2") =
        some (newEntry "k2" "c2" 1 2) ∧
      (∀ j < n,
        tinyState.l1SizeBytes - evictedSize flatSize tinyState.l1Cache (tinyState.l1Order.take j) +
            flatSize (newEntry "k2" "c2" 1 2) >
          (tinyState.maxSizeMB : Int) * 1024 * 1024) ∧
      (n = tinyState.l1Order.length ∨
        tinyState.l1SizeBytes - evictedSize flatSize tinyState.l1Cache (tinyState.l1Order.take n) +
            flatSize (newEntry "k2" "c2" 1 2) ≤
          (tinyState.maxSizeMB : Int) * 1024 * 1024) ∧
      (∀ k ∈ (setCM flatSize tinyState "k2" 2 "c2" 1).l1Order,
        (alookup (setCM flatSize tinyState "k2" 2 "c2" 1).l1Cache k).isSome) ∧
      (∀ p ∈ (setCM flatSize tinyState "k2" 2 "c2" 1).l1Cache,
        p.1 ∈ (setCM flatSize tinyState "k2" 2 "c2" 1).l1Order) ∧
      (setCM flatSize tinyState "k2" 2 "c2" 1).l1Order.Nodup ∧
      ((setCM flatSize tinyState "k2" 2 "c2" 1).l1Cache.map Prod.fst).Nodup ∧
      (∀ (σ : CacheManagerState Nat) (fp2 h2 : String) (e : CacheEntry Nat),
        alookup σ.l1Cache (getCacheKey fp2) = some e → e.hash = h2 →
        getCacheKey fp2 ∈ σ.l1Order →
        (getCM flatSize σ fp2 (some h2)).2.l1Order =
          σ.l1Order.erase (getCacheKey fp2) ++ [getCacheKey fp2])) :=
  ⟨by decide,
    c5_lru_eviction flatSize tinyState "k2" 2 "c2" 1
      (by decide) (by decide) (by decide) (by decide) (by decide)⟩

/-- For two distinct files importing each other, the DFS records exactly
one cycle, of length 2, whichever key iteration starts it. -/
theorem detect_two_cycle (A B : String) (hne : A ≠ B) :
    detectCircularDependencies [ (A, [B]), (B, [A]) ] =
      [ { cycle := [A, B], length := 2 } ] := by
  have hfuel : dfsFuel [ (A, [B]), (B, [A]) ] = 5 := rfl
  simp [detectCircularDependencies, hfuel, dfsVisit, graphDeps, alookup,
        isCycleAlreadyFound, List.indexOf_cons_self, hne, Ne.symm hne]

/-- C8: two mutually-importing files produce exactly one circular
dependency of length 2, regardless of which file the DFS starts from; and
for every file of every input, instability = Ce/(Ca+Ce) lies in [0, 1],
and is 0 when both couplings are 0 (the `else` branch of the very
definition). -/
theorem c8_cycle_and_instability :
    (∀ A B : String, A ≠ B →
      detectCircularDependencies [ (A, [B]), (B, [A]) ] =
        [ { cycle := [A, B], length := 2 } ] ∧
      detectCircularDependencies [ (B, [A]), (A, [B]) ] =
        [ { cycle := [B, A], length := 2 } ]) ∧
    (∀ (graph : List (String × List String)) (files : List String),
      ∀ p ∈ calculateCouplingMetrics graph files,
        0 ≤ p.2.instability ∧ p.2.instability ≤ 1) := by
  constructor
  · intro A B hne
    exact ⟨detect_two_cycle A B hne, detect_two_cycle B A (Ne.symm hne)⟩
  · intro graph files p hp
    simp only [calculateCouplingMetrics, List.mem_map] at hp
    obtain ⟨q, hq, hpq⟩ := hp
    subst hpq
    simp only
    by_cases htot : q.2.afferentCoupling + q.2.efferentCoupling > 0
    · rw [if_pos htot]
      constructor
      · apply div_nonneg <;> positivity
      · rw [div_le_one (by exact_mod_cast htot)]
        exact_mod_cast Nat.le_add_left q.2.efferentCoupling q.2.afferentCoupling
    · rw [if_neg htot]
      norm_num

/-- The concrete 2-cycle: `a.ts` and `b.ts` import each other. -/
def abGraph : List (String × List String) :=
  [ ("a.ts", [ "b.ts" ]), ("b.ts", [ "a.ts" ]) ]

/-- The coupling records of the concrete 2-cycle's analysis. -/
def abMetrics : List (String × FileCouplingMetrics) :=
  calculateCouplingMetrics abGraph [ "a.ts", "b.ts" ]

/-- The analysis yields one record per file. -/
theorem abMetrics_length : abMetrics.length = 2 := rfl

/-- The first coupling record of the concrete 2-cycle's analysis. -/
def abFirst : String × FileCouplingMetrics :=
  abMetrics.head
    (List.ne_nil_of_length_pos (by rw [abMetrics_length]; norm_num))

/-- C8, witness: the concrete mutual-import pair, in both iteration
orders, and the bounds at its first coupling record. -/
theorem c8_witness :
    (detectCircularDependencies abGraph =
      [ { cycle := [ "a.ts", "b.ts" ], length := 2 } ] ∧
     detectCircularDependencies [ ("b.ts", [ "a.ts" ]), ("a.ts", [ "b.ts" ]) ] =
      [ { cycle := [ "b.ts", "a.ts" ], length := 2 } ]) ∧
    (0 ≤ abFirst.2.instability ∧ abFirst.2.instability ≤ 1) :=
  ⟨c8_cycle_and_instability.1 "a.ts" "b.ts" (by decide),
   c8_cycle_and_instability.2 abGraph [ "a.ts", "b.ts" ] abFirst
     (List.head_mem _)⟩

end TypeMap
